import Mathlib

/-!
Verification development for the expression-compilation and cast-evaluation
core of the velox repository.

Part A embeds the per-row cast kernels of
`src/velox/expression/CastExpr-inl.h`; Part B embeds the expression compiler
of `src/velox/expression/ExprCompiler.cpp`.

Conventions of the embedding:
* C++ signed integer division and remainder (truncation toward zero) are
  `Int.tdiv` and `Int.tmod`.
* C++ exceptions become `Except`; a `VeloxException` carries an
  `isUserError` bit as in `velox/common/base/Exceptions.h`.
* Machine-integer overflow on `static_cast` is modelled as two-complement
  wrap-around.
* External collaborators that are not part of the repository sources
  (cast hooks, the function registries, `DecimalUtil`, `StringView`) are
  modelled as abstract parameters whose contracts follow the specification;
  each such definition is marked `Modelled from the spec:`.
-/

namespace VeloxSpec

/-! ### Type kinds

Modelled from the spec, section 3: scalar type kinds relevant to the cast
kernels.  `isPrimitiveType` and `isFixedWidth` follow the velox type traits
(all scalar kinds are primitive; all but the two string kinds are fixed
width). -/

inductive TypeKind where
  | boolean
  | tinyint
  | smallint
  | integer
  | bigint
  | hugeint
  | real
  | double
  | timestamp
  | varchar
  | varbinary
deriving DecidableEq, Repr

/-- Modelled from the spec: every scalar kind above is a primitive type. -/
def TypeKind.isPrimitiveType : TypeKind → Bool
  | _ => true

/-- Modelled from the spec: fixed-width kinds are all scalars except the
string kinds VARCHAR and VARBINARY. -/
def TypeKind.isFixedWidth : TypeKind → Bool
  | .varchar => false
  | .varbinary => false
  | _ => true

/-- Source kinds that carry string payloads (VARCHAR or VARBINARY). -/
def TypeKind.isStringKind : TypeKind → Bool
  | .varchar => true
  | .varbinary => true
  | _ => false

/-- Integral target kinds of the unicode check in `applyCastKernel`
(TINYINT, SMALLINT, INTEGER, BIGINT, HUGEINT). -/
def TypeKind.isIntegralKind : TypeKind → Bool
  | .tinyint => true
  | .smallint => true
  | .integer => true
  | .bigint => true
  | .hugeint => true
  | _ => false

/-! ### Cast policies and hooks -/

/-- The cast policies enumerated by `applyCastPrimitives`. -/
inductive CastPolicy where
  | legacyCast
  | prestoCast
  | sparkCast
  | sparkTryCast
deriving DecidableEq, Repr

/-- Modelled from the spec, policy table of section 4.3: only the Spark
policies reject non-ASCII input on string-to-integer casts
(`TPolicy::throwOnUnicode`). -/
def CastPolicy.throwOnUnicode : CastPolicy → Bool
  | .sparkCast => true
  | .sparkTryCast => true
  | _ => false

/-- Modelled from the spec, section 6.3: the hooks object consumed by the
cast kernels, together with the `setNullInResultAtError` flag of the
enclosing `CastExpr` (true exactly for try-cast). -/
structure CastHooks where
  policy : CastPolicy
  truncate : Bool
  setNullInResultAtError : Bool
  removeWhiteSpaces : String → String

/-! ### Error machinery of the kernels -/

/-- Exceptions thrown inside a per-row kernel body: a `VeloxException`
carrying its `isUserError` bit, or a plain `std::exception`. -/
inductive Thrown where
  | velox (isUser : Bool) (message : String)
  | stdExc (message : String)
deriving DecidableEq, Repr

/-- Observable per-row effect of a cast kernel: a written value, a null,
or an error recorded into the evaluation context.  The three recording
constructors mirror `context.setStatus` (`Status::UserError`),
`context.setVeloxExceptionError` and `context.setError`. -/
inductive RowOut where
  | set (v : Int)
  | setNullRow
  | ctxStatusUserError (details : Option String)
  | ctxVeloxError (message : String)
  | ctxStdError (message : String)
deriving DecidableEq, Repr

/-- Whether a row outcome records a user-level error into the context. -/
def RowOut.isUserErrorRecorded : RowOut → Bool
  | .ctxStatusUserError _ => true
  | .ctxVeloxError _ => true
  | .ctxStdError _ => true
  | _ => false

/-- Embeds `makeErrorMessage` of CastExpr-inl.h: the template
`Cannot cast <fromType> <value> to <toType>. <details>` (the C++ format
string additionally quotes the value). -/
def makeErrorMessage (fromType value toType details : String) : String :=
  "Cannot cast " ++ fromType ++ " " ++ value ++ " to " ++ toType ++ ". "
    ++ details

/-- Embeds `applyToSelectedNoThrowLocal` of CastExpr-inl.h, restricted to a
single row: runs the body; a thrown `VeloxException` that is not a user
error is re-thrown; other exceptions null the row when
`setNullInResultAtError` holds and are otherwise recorded into the
context. -/
def applyToSelectedNoThrowLocalRow (setNullInResultAtError : Bool)
    (body : Except Thrown RowOut) : Except String RowOut :=
  match body with
  | .ok out => .ok out
  | .error (.velox isUser msg) =>
      if !isUser then .error msg
      else if setNullInResultAtError then .ok .setNullRow
      else .ok (.ctxVeloxError msg)
  | .error (.stdExc msg) =>
      if setNullInResultAtError then .ok .setNullRow
      else .ok (.ctxStdError msg)

/-- Embeds the `setError` lambda of `applyCastKernel`: null the row under
try-cast, otherwise record a user error carrying the formatted message
exactly when the context captures error details. -/
def setErrorOut (setNullInResultAtError captureDetails : Bool)
    (fromType value toType : String) (details : String) : RowOut :=
  if setNullInResultAtError then .setNullRow
  else if captureDetails then
    .ctxStatusUserError (some (makeErrorMessage fromType value toType details))
  else .ctxStatusUserError none

/-- Result of one attempted conversion inside the kernel: a value, a
structured error (`Expected`/`Status`), or a thrown exception. -/
inductive ConvStep where
  | ok (v : Int)
  | err (message : String)
  | thr (t : Thrown)

/-- ASCII check used by the unicode guard
(`functions::stringCore::isAscii`). -/
def isAsciiStr (s : String) : Bool :=
  s.toList.all (fun ch => decide (ch.toNat < 128))

/-- Embeds `applyCastKernel` of CastExpr-inl.h for one row.  The various
converters and hook conversions are abstracted into `conv`; the whitespace
stripping, empty-string check, unicode check and the error machinery are
embedded from the source.  (The success-with-null path of
`castDoubleToTimestamp` is outside the claims and not modelled.)  `value`
is the printed form of the input row used by `makeErrorMessage`. -/
def applyCastKernelRow (hooks : CastHooks) (captureDetails : Bool)
    (fromKind toKind : TypeKind) (conv : String → ConvStep)
    (fromType value toType : String) (input : String) :
    Except Thrown RowOut :=
  let stripping :=
    fromKind.isStringKind && toKind.isPrimitiveType && toKind.isFixedWidth
  let v := if stripping then hooks.removeWhiteSpaces input else input
  if stripping && v.length == 0 then
    .ok (setErrorOut hooks.setNullInResultAtError captureDetails
      fromType value toType "Empty string")
  else if fromKind.isStringKind && toKind.isIntegralKind
      && hooks.policy.throwOnUnicode && !isAsciiStr v then
    -- VELOX_USER_FAIL throws a user error, caught by the trailing catch
    -- block of the kernel, which routes it through setError.
    .ok (setErrorOut hooks.setNullInResultAtError captureDetails
      fromType value toType
      "Unicode characters are not supported for conversion to integer types")
  else
    match conv v with
    | .ok w => .ok (.set w)
    | .err m =>
        .ok (setErrorOut hooks.setNullInResultAtError captureDetails
          fromType value toType m)
    | .thr (.velox true m) =>
        -- user VeloxException: caught by the kernel and routed to setError.
        .ok (setErrorOut hooks.setNullInResultAtError captureDetails
          fromType value toType m)
    | .thr (.velox false m) =>
        -- non-user VeloxException: re-thrown.
        .error (.velox false m)
    | .thr (.stdExc m) =>
        -- std::exception: caught by the kernel and routed to setError.
        .ok (setErrorOut hooks.setNullInResultAtError captureDetails
          fromType value toType m)

/-- One row of the full kernel: `applyCastKernel` wrapped by
`applyToSelectedNoThrowLocal` as in `applyCastPrimitives`. -/
def castKernelFullRow (hooks : CastHooks) (captureDetails : Bool)
    (fromKind toKind : TypeKind) (conv : String → ConvStep)
    (fromType value toType : String) (input : String) :
    Except String RowOut :=
  applyToSelectedNoThrowLocalRow hooks.setNullInResultAtError
    (applyCastKernelRow hooks captureDetails fromKind toKind conv
      fromType value toType input)

/-! ### Decimal to integral cast (`applyDecimalToIntegralCast`) -/

/-- Numeric lower bound of an integral target kind
(`std::numeric_limits<To>::min()`); zero for kinds the decimal-to-integral
dispatch never instantiates. -/
def intMinOf : TypeKind → Int
  | .tinyint => -128
  | .smallint => -32768
  | .integer => -2147483648
  | .bigint => -9223372036854775808
  | _ => 0

/-- Numeric upper bound of an integral target kind
(`std::numeric_limits<To>::max()`). -/
def intMaxOf : TypeKind → Int
  | .tinyint => 127
  | .smallint => 32767
  | .integer => 2147483647
  | .bigint => 9223372036854775807
  | _ => 0

/-- Bit width of an integral target kind. -/
def bitWidthOf : TypeKind → Nat
  | .tinyint => 8
  | .smallint => 16
  | .integer => 32
  | .bigint => 64
  | _ => 64

/-- Two-complement wrap-around of `static_cast<To>` on an out-of-range
value (`%` here is the mathematical, Euclidean remainder). -/
def staticCastWrap (width : Nat) (x : Int) : Int :=
  (x + 2 ^ (width - 1)) % 2 ^ width - 2 ^ (width - 1)

/-- Message attached by the out-of-bounds branch of
`applyDecimalToIntegralCast`: `makeBadCastException` formats
`makeErrorMessage(input, row, toType) + "Out of bounds."` as the detail of
an outer `makeErrorMessage`. -/
def outOfBoundsMessage (fromType value toType : String) : String :=
  makeErrorMessage fromType value toType
    (makeErrorMessage fromType value toType "" ++ "Out of bounds.")

/-- Embeds `applyDecimalToIntegralCast` of CastExpr-inl.h for one row.
`value` is the unscaled decimal representation with scale `scale`; the
scale factor is `10 ^ scale` (`DecimalUtil::kPowersOfTen[scale]`).  In the
`hooks_->truncate()` branch the quotient is cast without a bounds check;
in the other branch non-`SparkTryCastPolicy` policies round using the
fraction part, then the result is bounds-checked.  The C++ expression
`scaleFactor >> 1` on the non-negative scale factor is its quotient by
two. -/
def applyDecimalToIntegralCastRow (hooks : CastHooks) (toKind : TypeKind)
    (fromType valueStr toType : String) (scale : Nat) (value : Int) :
    RowOut :=
  let scaleFactor : Int := 10 ^ scale
  if hooks.truncate then
    .set (staticCastWrap (bitWidthOf toKind) (value.tdiv scaleFactor))
  else
    let integralPart := value.tdiv scaleFactor
    let integralPart :=
      if hooks.policy ≠ .sparkTryCast then
        let fractionPart := value.tmod scaleFactor
        let sign : Int := if 0 ≤ value then 1 else -1
        let needsRoundUp :=
          scaleFactor ≠ 1 ∧ scaleFactor.tdiv 2 ≤ sign * fractionPart
        integralPart + (if needsRoundUp then sign else 0)
      else integralPart
    if integralPart > intMaxOf toKind ∨ integralPart < intMinOf toKind then
      if hooks.setNullInResultAtError then .setNullRow
      else .ctxVeloxError (outOfBoundsMessage fromType valueStr toType)
    else .set integralPart

/-- Rounding of `num / den` (for `den > 0`) half away from zero, written
independently of the kernel: scale the absolute value, add half the
denominator, divide, and restore the sign. -/
def roundHalfAwayFromZero (num den : Int) : Int :=
  (if 0 ≤ num then 1 else -1) * (((num.natAbs : Int) + den.tdiv 2).tdiv den)

/-- Specification-side restatement of the decimal-to-integral cast,
following the spec wording of section 4.3 (Decimal → Integer): compute the
integral part, round half away from zero for every policy other than
SparkTryCast, then bounds-check against the target range, nulling out or
failing with an out-of-bounds error. -/
def decimalToIntegralSpec (policy : CastPolicy)
    (setNullInResultAtError : Bool) (toKind : TypeKind)
    (fromType valueStr toType : String) (scale : Nat) (value : Int) :
    RowOut :=
  let d : Int := 10 ^ scale
  let integral :=
    if policy ≠ .sparkTryCast then roundHalfAwayFromZero value d
    else value.tdiv d
  if integral > intMaxOf toKind ∨ integral < intMinOf toKind then
    if setNullInResultAtError then .setNullRow
    else .ctxVeloxError (outOfBoundsMessage fromType valueStr toType)
  else .set integral

/-! ### Decimal to varchar cast (`applyDecimalToVarcharCast`)

The string buffer bookkeeping of `applyDecimalToVarcharCast` is embedded
over the list of per-row string lengths returned by
`DecimalUtil::castToString` (abstracted, since `DecimalUtil` is not among
the sources).  Modelled from the spec, section 4.3 (Decimal → String): the
representation is bounded by `maxStringViewSize(p, s)`; short results are
written inline, longer ones are appended to the output arena. -/

/-- Modelled from the spec: `StringView::isInline(size)` holds when `size`
fits the inline small-string threshold `kInline`. -/
def stringViewIsInline (kInline size : Nat) : Bool :=
  size ≤ kInline

/-- The arena loop of `applyDecimalToVarcharCast`: `sizes` are the actual
sizes written for the selected rows in order; the result is the final
arena offset together with the `(start, size)` span written for each row.
The raw buffer pointer advances only when the written result is not
inline. -/
def decimalVarcharLoop (kInline : Nat) :
    List Nat → Nat → Nat × List (Nat × Nat)
  | [], offset => (offset, [])
  | size :: rest, offset =>
      let offset1 :=
        if stringViewIsInline kInline size then offset else offset + size
      let (final, writes) := decimalVarcharLoop kInline rest offset1
      (final, (offset, size) :: writes)

/-- Observable arena usage of `applyDecimalToVarcharCast`: either the
inline branch (a stack buffer, no arena bytes), or the arena branch with
its reservation `countSelected * rowSize`, the spans written, and the
final recorded buffer size. -/
inductive ArenaUse where
  | noArena
  | arena (reserved : Nat) (writes : List (Nat × Nat)) (finalSize : Nat)
deriving DecidableEq, Repr

/-- Embeds the buffer management of `applyDecimalToVarcharCast`:
`rowSize = DecimalUtil::maxStringViewSize(precision, scale)`; when
`StringView::isInline(rowSize)` all rows go through the stack buffer,
otherwise `countSelected * rowSize` bytes are reserved and the loop above
runs from offset zero. -/
def applyDecimalToVarcharCastArena (kInline rowSize : Nat)
    (sizes : List Nat) : ArenaUse :=
  if stringViewIsInline kInline rowSize then .noArena
  else
    let (final, writes) := decimalVarcharLoop kInline sizes 0
    .arena (sizes.length * rowSize) writes final

/-! ### Properties of the kernel error machinery (claim C2) -/

theorem setErrorOut_true (cd : Bool) (ft val tt detail : String) :
    setErrorOut true cd ft val tt detail = .setNullRow := rfl

theorem setErrorOut_false (cd : Bool) (ft val tt detail : String) :
    setErrorOut false cd ft val tt detail =
      .ctxStatusUserError
        (if cd then some (makeErrorMessage ft val tt detail) else none) := by
  by_cases h : cd <;> simp [setErrorOut, h]

/-- Case analysis of `applyCastKernelRow`: independently of the
`setNullInResultAtError` flag, a row either succeeds with a written value,
fails through `setError` with some detail string, or throws a non-user
(system) exception. -/
theorem applyCastKernelRow_cases (hooks : CastHooks) (cd : Bool)
    (fk tk : TypeKind) (conv : String → ConvStep)
    (ft val tt input : String) :
    (∃ w, ∀ b, applyCastKernelRow { hooks with setNullInResultAtError := b }
        cd fk tk conv ft val tt input = .ok (.set w)) ∨
    (∃ detail, ∀ b,
        applyCastKernelRow { hooks with setNullInResultAtError := b }
          cd fk tk conv ft val tt input
          = .ok (setErrorOut b cd ft val tt detail)) ∨
    (∃ m, ∀ b, applyCastKernelRow { hooks with setNullInResultAtError := b }
        cd fk tk conv ft val tt input = .error (.velox false m)) := by
  unfold applyCastKernelRow
  dsimp only
  cases hStrip :
      (fk.isStringKind && tk.isPrimitiveType && tk.isFixedWidth) <;>
    simp only [Bool.false_and, Bool.true_and, if_neg, if_pos, cond_eq_if,
      Bool.false_eq_true, if_false, if_true]
  · -- no stripping: the input goes to the conversion directly
    cases hUni : (fk.isStringKind && tk.isIntegralKind
        && hooks.policy.throwOnUnicode && !isAsciiStr input) <;>
      simp only [Bool.false_eq_true, if_false, if_true]
    · cases hConv : conv input with
      | ok w => exact Or.inl ⟨w, fun b => rfl⟩
      | err m => exact Or.inr (Or.inl ⟨m, fun b => rfl⟩)
      | thr t =>
          cases t with
          | velox isUser m =>
              cases isUser
              · exact Or.inr (Or.inr ⟨m, fun b => rfl⟩)
              · exact Or.inr (Or.inl ⟨m, fun b => rfl⟩)
          | stdExc m => exact Or.inr (Or.inl ⟨m, fun b => rfl⟩)
    · exact Or.inr (Or.inl ⟨_, fun b => rfl⟩)
  · -- stripping applies
    cases hLen : (hooks.removeWhiteSpaces input).length == 0 <;>
      simp only [Bool.and_true, Bool.and_false, Bool.false_eq_true, if_false,
        if_true]
    · cases hUni : (fk.isStringKind && tk.isIntegralKind
          && hooks.policy.throwOnUnicode
          && !isAsciiStr (hooks.removeWhiteSpaces input)) <;>
        simp only [Bool.false_eq_true, if_false, if_true]
      · cases hConv : conv (hooks.removeWhiteSpaces input) with
        | ok w => exact Or.inl ⟨w, fun b => rfl⟩
        | err m => exact Or.inr (Or.inl ⟨m, fun b => rfl⟩)
        | thr t =>
            cases t with
            | velox isUser m =>
                cases isUser
                · exact Or.inr (Or.inr ⟨m, fun b => rfl⟩)
                · exact Or.inr (Or.inl ⟨m, fun b => rfl⟩)
            | stdExc m => exact Or.inr (Or.inl ⟨m, fun b => rfl⟩)
      · exact Or.inr (Or.inl ⟨_, fun b => rfl⟩)
    · exact Or.inr (Or.inl ⟨"Empty string", fun b => rfl⟩)

/-- C2: for every cast kernel row that fails to convert, the try policy
(`setNullInResultAtError`) nulls the row, the strict policy records a user
error into the context whose formatted message is present exactly when the
context captures error details; a row is nulled under the try policy iff
the strict policy records a user error for it, and non-user (system)
errors propagate identically under both policies. -/
theorem C2_cast_error_policy (hooks : CastHooks) (cd : Bool)
    (fk tk : TypeKind) (conv : String → ConvStep)
    (ft val tt input : String) :
    ((castKernelFullRow { hooks with setNullInResultAtError := true }
        cd fk tk conv ft val tt input = .ok .setNullRow) ↔
      (∃ d, castKernelFullRow { hooks with setNullInResultAtError := false }
        cd fk tk conv ft val tt input = .ok (.ctxStatusUserError d))) ∧
    (∀ d, castKernelFullRow { hooks with setNullInResultAtError := false }
        cd fk tk conv ft val tt input = .ok (.ctxStatusUserError d) →
      ((d.isSome ↔ cd = true) ∧
        ∀ m ∈ d, ∃ detail, m = makeErrorMessage ft val tt detail)) ∧
    (∀ m, (castKernelFullRow { hooks with setNullInResultAtError := true }
        cd fk tk conv ft val tt input = .error m) ↔
      (castKernelFullRow { hooks with setNullInResultAtError := false }
        cd fk tk conv ft val tt input = .error m)) := by
  rcases applyCastKernelRow_cases hooks cd fk tk conv ft val tt input with
    ⟨w, hw⟩ | ⟨detail, hd⟩ | ⟨m, hm⟩
  · refine ⟨?_, ?_, ?_⟩
    · simp [castKernelFullRow, hw, applyToSelectedNoThrowLocalRow]
    · intro d hcontra
      simp [castKernelFullRow, hw, applyToSelectedNoThrowLocalRow] at hcontra
    · intro m0
      simp [castKernelFullRow, hw, applyToSelectedNoThrowLocalRow]
  · refine ⟨?_, ?_, ?_⟩
    · simp [castKernelFullRow, hd, applyToSelectedNoThrowLocalRow,
        setErrorOut_true, setErrorOut_false]
    · intro d hEq
      simp only [castKernelFullRow, hd, applyToSelectedNoThrowLocalRow,
        setErrorOut_false, Except.ok.injEq, RowOut.ctxStatusUserError.injEq]
        at hEq
      subst hEq
      constructor
      · by_cases hcd : cd <;> simp [hcd]
      · intro mm hmem
        by_cases hcd : cd <;> simp [hcd] at hmem
        exact ⟨detail, hmem.symm⟩
    · intro m0
      simp [castKernelFullRow, hd, applyToSelectedNoThrowLocalRow,
        setErrorOut_true, setErrorOut_false]
  · refine ⟨?_, ?_, ?_⟩
    · simp [castKernelFullRow, hm, applyToSelectedNoThrowLocalRow]
    · intro d hcontra
      simp [castKernelFullRow, hm, applyToSelectedNoThrowLocalRow] at hcontra
    · intro m0
      simp [castKernelFullRow, hm, applyToSelectedNoThrowLocalRow]

/-! ### Arithmetic facts for the decimal-to-integral rounding (claim C3) -/

theorem nat_half_round (n d : Nat) (hd : 0 < d) (he : 2 ∣ d) :
    (n + d / 2) / d = n / d + (if d / 2 ≤ n % d then 1 else 0) := by
  have h0 := Nat.div_add_mod n d
  have hr : n % d < d := Nat.mod_lt _ hd
  have h1 : n + d / 2 = d * (n / d) + (n % d + d / 2) := by omega
  rw [h1, Nat.mul_add_div hd]
  congr 1
  by_cases hc : d / 2 ≤ n % d
  · rw [if_pos hc]
    exact Nat.div_eq_of_lt_le (by omega) (by omega)
  · rw [if_neg hc]
    exact Nat.div_eq_of_lt (by omega)

theorem int_neg_tmod (a b : Int) : (-a).tmod b = -(a.tmod b) := by
  rw [Int.tmod_def, Int.tmod_def, Int.neg_tdiv]
  ring

theorem tdiv_round_half_nonneg (n dn : Nat) (hd : 0 < dn) (he : 2 ∣ dn) :
    (((n / dn : Nat)) : Int) +
      (if ((dn / 2 : Nat) : Int) ≤ ((n % dn : Nat) : Int)
        then (1 : Int) else 0)
      = ((((n + dn / 2) / dn : Nat)) : Int) := by
  rw [nat_half_round n dn hd he]
  by_cases hc : dn / 2 ≤ n % dn
  · rw [if_pos (by exact_mod_cast hc), if_pos hc]
    push_cast
    ring
  · rw [if_neg (by exact_mod_cast hc), if_neg hc]
    push_cast
    ring

/-- The rounding computed by the non-truncating branch of
`applyDecimalToIntegralCast` (quotient plus a sign-directed correction by
the fraction part) is rounding half away from zero. -/
theorem tdiv_round_half (value : Int) (s : Nat) :
    value.tdiv (10 ^ s) +
      (if (10 : Int) ^ s ≠ 1 ∧
          ((10 : Int) ^ s).tdiv 2
            ≤ (if 0 ≤ value then (1 : Int) else -1) * value.tmod (10 ^ s)
        then (if 0 ≤ value then (1 : Int) else -1) else 0)
      = roundHalfAwayFromZero value (10 ^ s) := by
  rcases Nat.eq_zero_or_pos s with hs | hs
  · subst hs
    simp only [pow_zero, Int.tdiv_one, ne_eq, not_true_eq_false, false_and,
      if_false, add_zero, roundHalfAwayFromZero]
    have h2 : (1 : Int).tdiv 2 = 0 := rfl
    rw [h2]
    by_cases hv : 0 ≤ value
    · simp [hv, Int.natAbs_of_nonneg hv]
    · simp only [hv, if_false]
      have hval : ((value.natAbs : Nat) : Int) = -value := by
        omega
      rw [hval]
      ring
  · have hd10 : (0 : Nat) < 10 ^ s := Nat.pos_pow_of_pos s (by omega)
    have he : 2 ∣ 10 ^ s := by
      obtain ⟨t, rfl⟩ : ∃ t, s = t + 1 := ⟨s - 1, by omega⟩
      exact ⟨5 * 10 ^ t, by ring⟩
    have hne1 : (10 : Nat) ^ s ≠ 1 := by
      intro h
      omega
    have hcast : ((10 : Int) ^ s) = ((10 ^ s : Nat) : Int) := by
      push_cast
      ring
    have hne : (((10 ^ s : Nat) : Nat) : Int) ≠ 1 := by
      intro h
      exact hne1 (by exact_mod_cast h)
    have htdiv2 : Int.tdiv (((10 ^ s : Nat)) : Int) 2
        = ((10 ^ s / 2 : Nat) : Int) := by
      exact_mod_cast (Int.ofNat_tdiv (10 ^ s) 2).symm
    have htdivN : ∀ m : Nat, Int.tdiv (m : Int) ((10 ^ s : Nat) : Int)
        = ((m / 10 ^ s : Nat) : Int) := fun m =>
      (Int.ofNat_tdiv m (10 ^ s)).symm
    have htmodN : ∀ m : Nat, Int.tmod (m : Int) ((10 ^ s : Nat) : Int)
        = ((m % 10 ^ s : Nat) : Int) := fun m =>
      (Int.ofNat_tmod m (10 ^ s)).symm
    rw [hcast]
    have hsum : ∀ n : Nat, ((n : Int) + ((10 ^ s / 2 : Nat) : Int))
        = (((n + 10 ^ s / 2 : Nat)) : Int) := by
      intro n
      push_cast
      ring
    by_cases hv : 0 ≤ value
    · obtain ⟨n, rfl⟩ : ∃ n : ℕ, value = (n : Int) := ⟨value.toNat, by omega⟩
      rw [htdiv2, htdivN, htmodN]
      simp only [hv, if_true, one_mul, roundHalfAwayFromZero,
        Int.natAbs_ofNat]
      rw [htdiv2, hsum, htdivN]
      simp only [ne_eq, hne, not_false_eq_true, true_and]
      exact tdiv_round_half_nonneg n (10 ^ s) hd10 he
    · obtain ⟨n, rfl⟩ : ∃ n : ℕ, value = -(n : Int) :=
        ⟨(-value).toNat, by omega⟩
      rw [htdiv2, Int.neg_tdiv, htdivN, int_neg_tmod, htmodN]
      simp only [hv, if_false, roundHalfAwayFromZero]
      have habs : (((-(n : Int)).natAbs : Nat) : Int) = (n : Int) := by
        omega
      rw [habs, htdiv2, hsum, htdivN]
      simp only [ne_eq, hne, not_false_eq_true, true_and, neg_mul, one_mul,
        neg_neg]
      have hmain := tdiv_round_half_nonneg n (10 ^ s) hd10 he
      by_cases hc : ((10 ^ s / 2 : Nat) : Int) ≤ ((n % 10 ^ s : Nat) : Int)
      · rw [if_pos hc] at hmain ⊢
        omega
      · rw [if_neg hc] at hmain ⊢
        omega

/-- C3: with `hooks_->truncate()` false, the decimal-to-integral kernel
computes the integral part `value / 10^scale`, rounds half away from zero
for every policy other than SparkTryCast using the fraction
`value mod 10^scale`, and bounds-checks the result against the target
range, failing with an out-of-bounds error or nulling out under the
null-on-error policy; together with the concrete scenarios of the spec:
DECIMAL(5,2) 100.50 to INTEGER is 101 under Presto and 100 under
SparkTryCast (with and without hook truncation), and DECIMAL(10,2) 12345
to TINYINT errors out of bounds under Presto and yields null under
SparkTryCast. -/
theorem C3_decimal_to_integral_rounding :
    (∀ (hooks : CastHooks) (toKind : TypeKind) (ft val tt : String)
        (scale : Nat) (value : Int), hooks.truncate = false →
      applyDecimalToIntegralCastRow hooks toKind ft val tt scale value =
        decimalToIntegralSpec hooks.policy hooks.setNullInResultAtError
          toKind ft val tt scale value) ∧
    (applyDecimalToIntegralCastRow ⟨.prestoCast, false, false, fun s => s⟩
        .integer "DECIMAL(5,2)" "100.50" "INTEGER" 2 10050 = .set 101) ∧
    (applyDecimalToIntegralCastRow ⟨.sparkTryCast, false, true, fun s => s⟩
        .integer "DECIMAL(5,2)" "100.50" "INTEGER" 2 10050 = .set 100) ∧
    (applyDecimalToIntegralCastRow ⟨.sparkTryCast, true, true, fun s => s⟩
        .integer "DECIMAL(5,2)" "100.50" "INTEGER" 2 10050 = .set 100) ∧
    (applyDecimalToIntegralCastRow ⟨.prestoCast, false, false, fun s => s⟩
        .tinyint "DECIMAL(10,2)" "12345" "TINYINT" 2 1234500 =
      .ctxVeloxError (outOfBoundsMessage "DECIMAL(10,2)" "12345" "TINYINT")) ∧
    (applyDecimalToIntegralCastRow ⟨.sparkTryCast, false, true, fun s => s⟩
        .tinyint "DECIMAL(10,2)" "12345" "TINYINT" 2 1234500
      = .setNullRow) := by
  refine ⟨?_, by decide, by decide, by decide, by decide, by decide⟩
  intro hooks toKind ft val tt scale value htr
  unfold applyDecimalToIntegralCastRow decimalToIntegralSpec
  rw [htr]
  simp only [Bool.false_eq_true, if_false]
  by_cases hp : hooks.policy = .sparkTryCast
  · simp only [hp, ne_eq, not_true_eq_false, if_false]
  · simp only [hp, ne_eq, not_false_eq_true, if_true]
    rw [tdiv_round_half]

/-- C8: for a string source and a fixed-width primitive target other than
TIMESTAMP, the kernel strips the configured whitespace first; if the
stripped input is empty the row fails with an Empty string error handled
per the error policy, without consulting the converter; otherwise the
kernel consults the converter only on the stripped input. -/
theorem C8_string_whitespace_empty (hooks : CastHooks) (cd : Bool)
    (fk tk : TypeKind) (conv conv2 : String → ConvStep)
    (ft val tt input : String)
    (hfk : fk.isStringKind = true) (htk1 : tk.isPrimitiveType = true)
    (htk2 : tk.isFixedWidth = true) (_htk3 : tk ≠ .timestamp) :
    ((hooks.removeWhiteSpaces input).length = 0 →
      applyCastKernelRow hooks cd fk tk conv ft val tt input =
        .ok (if hooks.setNullInResultAtError then .setNullRow
          else .ctxStatusUserError
            (if cd then some (makeErrorMessage ft val tt "Empty string")
             else none))) ∧
    (conv (hooks.removeWhiteSpaces input)
        = conv2 (hooks.removeWhiteSpaces input) →
      applyCastKernelRow hooks cd fk tk conv ft val tt input =
        applyCastKernelRow hooks cd fk tk conv2 ft val tt input) := by
  constructor
  · intro hlen
    unfold applyCastKernelRow
    simp only [hfk, htk1, htk2, Bool.and_self, Bool.true_and, if_true,
      hlen, beq_self_eq_true]
    by_cases hb : hooks.setNullInResultAtError <;>
      by_cases hcd : cd <;>
        simp [setErrorOut, hb, hcd]
  · intro hconv
    unfold applyCastKernelRow
    simp only [hfk, htk1, htk2, Bool.and_self, Bool.true_and, if_true,
      hconv]

/-! ### Arena accounting of the decimal-to-varchar cast (claim C10) -/

theorem decimalVarcharLoop_final (kInline : Nat) (sizes : List Nat)
    (offset : Nat) :
    (decimalVarcharLoop kInline sizes offset).1 =
      offset
        + (sizes.filter (fun sz => !stringViewIsInline kInline sz)).sum := by
  induction sizes generalizing offset with
  | nil => simp [decimalVarcharLoop]
  | cons size rest ih =>
      by_cases hin : stringViewIsInline kInline size
      · simp [decimalVarcharLoop, hin, ih]
      · have hfilter :
            (size :: rest).filter (fun sz => !stringViewIsInline kInline sz)
              = size
                :: rest.filter (fun sz => !stringViewIsInline kInline sz) := by
          simp [List.filter_cons, hin]
        simp only [decimalVarcharLoop, hin, Bool.false_eq_true, if_false,
          hfilter, List.sum_cons, ih]
        omega

theorem decimalVarcharLoop_writes (kInline rowSize : Nat)
    (sizes : List Nat) (offset : Nat)
    (hb : ∀ sz ∈ sizes, sz ≤ rowSize) :
    ∀ w ∈ (decimalVarcharLoop kInline sizes offset).2,
      w.1 + w.2 ≤ offset + sizes.length * rowSize := by
  induction sizes generalizing offset with
  | nil => simp [decimalVarcharLoop]
  | cons size rest ih =>
      intro w hw
      have hsz : size ≤ rowSize := hb size (List.mem_cons_self size rest)
      have hrest : ∀ sz ∈ rest, sz ≤ rowSize :=
        fun sz hx => hb sz (List.mem_cons_of_mem size hx)
      simp only [decimalVarcharLoop, List.mem_cons] at hw
      simp only [List.length_cons, Nat.succ_mul]
      rcases hw with hw | hw
      · subst hw
        omega
      · have := ih
          (if stringViewIsInline kInline size then offset else offset + size)
          hrest w hw
        by_cases hin : stringViewIsInline kInline size <;>
          simp only [hin, if_true, Bool.false_eq_true, if_false] at this <;>
          omega

theorem nat_list_sum_le (l : List Nat) (r : Nat) (h : ∀ x ∈ l, x ≤ r) :
    l.sum ≤ l.length * r := by
  induction l with
  | nil => simp
  | cons a as ih =>
      simp only [List.sum_cons, List.length_cons, Nat.succ_mul]
      have h1 := ih (fun x hx => h x (List.mem_cons_of_mem a hx))
      have h2 := h a (List.mem_cons_self a as)
      omega

theorem nat_filter_sum_le (p : Nat → Bool) (l : List Nat) :
    (l.filter p).sum ≤ l.sum := by
  induction l with
  | nil => simp
  | cons a as ih =>
      by_cases hp : p a <;> simp [List.filter_cons, hp] <;> omega

/-- C10: for a decimal-to-varchar cast, when the per-row bound
`maxStringViewSize(p, s)` fits the inline threshold no arena bytes are
used at all; otherwise, provided every written size respects the modelled
`castToString` bound, every arena write stays within the reserved
`countSelected * rowSize` bytes, and the final recorded buffer size is
exactly the total of the sizes of the non-inline results (the pointer
advances only for them), which in particular never exceeds the
reservation. -/
theorem C10_decimal_varchar_arena (kInline rowSize : Nat)
    (sizes : List Nat) (hb : ∀ sz ∈ sizes, sz ≤ rowSize) :
    (stringViewIsInline kInline rowSize = true →
      applyDecimalToVarcharCastArena kInline rowSize sizes = .noArena) ∧
    (stringViewIsInline kInline rowSize = false →
      ∃ writes final,
        applyDecimalToVarcharCastArena kInline rowSize sizes =
          .arena (sizes.length * rowSize) writes final ∧
        (∀ w ∈ writes, w.1 + w.2 ≤ sizes.length * rowSize) ∧
        final =
          (sizes.filter (fun sz => !stringViewIsInline kInline sz)).sum ∧
        final ≤ sizes.length * rowSize) := by
  constructor
  · intro hin
    simp [applyDecimalToVarcharCastArena, hin]
  · intro hin
    refine ⟨(decimalVarcharLoop kInline sizes 0).2,
      (decimalVarcharLoop kInline sizes 0).1, ?_, ?_, ?_, ?_⟩
    · simp [applyDecimalToVarcharCastArena, hin]
    · intro w hw
      have := decimalVarcharLoop_writes kInline rowSize sizes 0 hb w hw
      omega
    · have := decimalVarcharLoop_final kInline sizes 0
      omega
    · have h1 := decimalVarcharLoop_final kInline sizes 0
      have h2 := nat_filter_sum_le
        (fun sz => !stringViewIsInline kInline sz) sizes
      have h3 := nat_list_sum_le sizes rowSize hb
      omega

/-- Witness for C2 at a concrete failing conversion. -/
theorem C2_cast_error_policy_witness :
    castKernelFullRow
      { policy := .prestoCast, truncate := false,
        setNullInResultAtError := true, removeWhiteSpaces := fun s => s }
      true .varchar .integer (fun _ => .err "parse failure")
      "VARCHAR" "x" "INTEGER" "x" = .ok .setNullRow :=
  (C2_cast_error_policy
    ⟨.prestoCast, false, false, fun s => s⟩ true .varchar .integer
    (fun _ => .err "parse failure") "VARCHAR" "x" "INTEGER" "x").1.mpr
    ⟨some (makeErrorMessage "VARCHAR" "x" "INTEGER" "parse failure"), rfl⟩

/-- Witness for C3 at a concrete input with hook truncation disabled. -/
theorem C3_decimal_to_integral_rounding_witness :
    (CastHooks.truncate ⟨.prestoCast, false, false, fun s => s⟩ = false) ∧
    applyDecimalToIntegralCastRow ⟨.prestoCast, false, false, fun s => s⟩
        .integer "DECIMAL(5,2)" "100.50" "INTEGER" 2 10050 =
      decimalToIntegralSpec .prestoCast false .integer
        "DECIMAL(5,2)" "100.50" "INTEGER" 2 10050 :=
  ⟨rfl, C3_decimal_to_integral_rounding.1
    ⟨.prestoCast, false, false, fun s => s⟩ .integer
    "DECIMAL(5,2)" "100.50" "INTEGER" 2 10050 rfl⟩

/-- Witness for C8: a hook that strips everything makes the stripped input
empty, and the row nulls out under try-cast without consulting the
converter. -/
theorem C8_string_whitespace_empty_witness :
    (CastHooks.removeWhiteSpaces
        ⟨.prestoCast, false, true, fun _ => ""⟩ " 42").length = 0 ∧
    applyCastKernelRow ⟨.prestoCast, false, true, fun _ => ""⟩ false
        .varchar .integer (fun _ => .ok 0) "VARCHAR" " 42" "INTEGER" " 42"
      = .ok .setNullRow :=
  ⟨rfl, (C8_string_whitespace_empty
    ⟨.prestoCast, false, true, fun _ => ""⟩ false .varchar .integer
    (fun _ => .ok 0) (fun _ => .ok 0) "VARCHAR" " 42" "INTEGER" " 42"
    rfl rfl rfl (by decide)).1 rfl⟩

/-- Witness for C10 at a concrete selection with one inline and two
non-inline results. -/
theorem C10_decimal_varchar_arena_witness :
    (∀ sz ∈ [13, 5, 20], sz ≤ 20) ∧
    (stringViewIsInline 12 20 = false →
      ∃ writes final,
        applyDecimalToVarcharCastArena 12 20 [13, 5, 20] =
          .arena ([13, 5, 20].length * 20) writes final ∧
        (∀ w ∈ writes, w.1 + w.2 ≤ [13, 5, 20].length * 20) ∧
        final = ([13, 5, 20].filter
          (fun sz => !stringViewIsInline 12 sz)).sum ∧
        final ≤ [13, 5, 20].length * 20) :=
  ⟨by decide, (C10_decimal_varchar_arena 12 20 [13, 5, 20] (by decide)).2⟩

/-! ## Part B: the expression compiler (ExprCompiler.cpp)

The typed-expression IR, the compiled expression graph, scopes and the
compiler itself are embedded below.  C++ pointer identity of compiled
nodes is modelled by a per-node id allocated from a counter; the
structural equality `ITypedExpr::operator==` used by the deduplication map
is `TypedExpr.beq`, and two structurally equal C++ IR objects are
represented by one and the same Lean value.  The recursion of the compiler
is driven by a fuel parameter; every helper takes the recursive
compilation function as an explicit argument `comp`, so statements about
the helpers hold for every fuel. -/

/-! ### Logical types (C1 of the spec component table) -/

inductive VType where
  | scalar (kind : TypeKind)
  | decimalT (precision scale : Nat)
  | rowT (children : List VType)
  | functionT (params : List VType) (ret : VType)
deriving Repr

/- Structural equality of types; also models `Type::equivalent`, which is
structural for the types represented here (spec section 3: type
equivalence is structural). -/
mutual
def VType.beq : VType → VType → Bool
  | .scalar k, .scalar k2 => k == k2
  | .decimalT p s, .decimalT p2 s2 => p == p2 && s == s2
  | .rowT cs, .rowT cs2 => VType.beqList cs cs2
  | .functionT ps r, .functionT ps2 r2 =>
      VType.beqList ps ps2 && VType.beq r r2
  | _, _ => false
def VType.beqList : List VType → List VType → Bool
  | [], [] => true
  | a :: as, b :: bs => VType.beq a b && VType.beqList as bs
  | _, _ => false
end

mutual
theorem VType.beq_rfl : ∀ a : VType, VType.beq a a = true
  | .scalar k => by simp [VType.beq]
  | .decimalT p s => by simp [VType.beq]
  | .rowT cs => by simp [VType.beq, VType.beqList_rfl cs]
  | .functionT ps r => by
      simp [VType.beq, VType.beqList_rfl ps, VType.beq_rfl r]
theorem VType.beqList_rfl : ∀ as : List VType, VType.beqList as as = true
  | [] => by simp [VType.beqList]
  | a :: as => by
      simp [VType.beqList, VType.beq_rfl a, VType.beqList_rfl as]
end

/-! ### Typed-expression IR (`core::ITypedExpr`) -/

inductive TypedExpr where
  | constant (ty : VType) (value : Int)
  | inputRef (ty : VType)
  | fieldAccess (ty : VType) (name : String) (inputs : List TypedExpr)
  | dereference (ty : VType) (index : Nat) (inputs : List TypedExpr)
  | call (ty : VType) (name : String) (inputs : List TypedExpr)
  | castTE (ty : VType) (inputs : List TypedExpr) (isTryCast : Bool)
  | concatTE (ty : VType) (inputs : List TypedExpr)
  | lambdaTE (paramNames : List String) (paramTypes : List VType)
      (body : TypedExpr)
deriving Repr

/-- The `type()` of an IR node; a lambda carries its FUNCTION type. -/
def TypedExpr.tyOf : TypedExpr → VType
  | .constant ty _ => ty
  | .inputRef ty => ty
  | .fieldAccess ty _ _ => ty
  | .dereference ty _ _ => ty
  | .call ty _ _ => ty
  | .castTE ty _ _ => ty
  | .concatTE ty _ => ty
  | .lambdaTE _ paramTypes body => .functionT paramTypes body.tyOf

/-- The `inputs()` of an IR node (a `LambdaTypedExpr` has none). -/
def TypedExpr.inputsOf : TypedExpr → List TypedExpr
  | .constant _ _ => []
  | .inputRef _ => []
  | .fieldAccess _ _ inputs => inputs
  | .dereference _ _ inputs => inputs
  | .call _ _ inputs => inputs
  | .castTE _ inputs _ => inputs
  | .concatTE _ inputs => inputs
  | .lambdaTE _ _ _ => []

/-- The `isInputKind()` test (`InputTypedExpr`). -/
def TypedExpr.isInputKind : TypedExpr → Bool
  | .inputRef _ => true
  | _ => false

/-- The `isCallKind()` test (`CallTypedExpr`). -/
def TypedExpr.isCallKind : TypedExpr → Bool
  | .call _ _ _ => true
  | _ => false

/-- The `isFieldAccessKind()` test. -/
def TypedExpr.isFieldAccessKind : TypedExpr → Bool
  | .fieldAccess _ _ _ => true
  | _ => false

/- Structural equality `ITypedExpr::operator==`, used by the
deduplication map comparer. -/
mutual
def TypedExpr.beq : TypedExpr → TypedExpr → Bool
  | .constant t v, .constant t2 v2 => VType.beq t t2 && v == v2
  | .inputRef t, .inputRef t2 => VType.beq t t2
  | .fieldAccess t n is, .fieldAccess t2 n2 is2 =>
      VType.beq t t2 && n == n2 && TypedExpr.beqList is is2
  | .dereference t i is, .dereference t2 i2 is2 =>
      VType.beq t t2 && i == i2 && TypedExpr.beqList is is2
  | .call t n is, .call t2 n2 is2 =>
      VType.beq t t2 && n == n2 && TypedExpr.beqList is is2
  | .castTE t is f, .castTE t2 is2 f2 =>
      VType.beq t t2 && TypedExpr.beqList is is2 && f == f2
  | .concatTE t is, .concatTE t2 is2 =>
      VType.beq t t2 && TypedExpr.beqList is is2
  | .lambdaTE ns ts b, .lambdaTE ns2 ts2 b2 =>
      ns == ns2 && VType.beqList ts ts2 && TypedExpr.beq b b2
  | _, _ => false
def TypedExpr.beqList : List TypedExpr → List TypedExpr → Bool
  | [], [] => true
  | a :: as, b :: bs => TypedExpr.beq a b && TypedExpr.beqList as bs
  | _, _ => false
end

mutual
theorem TypedExpr.beq_refl : ∀ a : TypedExpr, TypedExpr.beq a a = true
  | .constant t v => by simp [TypedExpr.beq, VType.beq_rfl]
  | .inputRef t => by simp [TypedExpr.beq, VType.beq_rfl]
  | .fieldAccess t n is => by
      simp [TypedExpr.beq, VType.beq_rfl, TypedExpr.beqList_refl is]
  | .dereference t i is => by
      simp [TypedExpr.beq, VType.beq_rfl, TypedExpr.beqList_refl is]
  | .call t n is => by
      simp [TypedExpr.beq, VType.beq_rfl, TypedExpr.beqList_refl is]
  | .castTE t is f => by
      simp [TypedExpr.beq, VType.beq_rfl, TypedExpr.beqList_refl is]
  | .concatTE t is => by
      simp [TypedExpr.beq, VType.beq_rfl, TypedExpr.beqList_refl is]
  | .lambdaTE ns ts b => by
      simp [TypedExpr.beq, VType.beqList_rfl, TypedExpr.beq_refl b]
theorem TypedExpr.beqList_refl :
    ∀ as : List TypedExpr, TypedExpr.beqList as as = true
  | [] => by simp [TypedExpr.beqList]
  | a :: as => by
      simp [TypedExpr.beqList, TypedExpr.beq_refl a,
        TypedExpr.beqList_refl as]
end

/-! ### Compiled expression graph (`exec::Expr`) -/

/-- Metadata of a compiled node (spec section 3, compiled graph): the
determinism bit and the distinct referenced input fields.  Modelled from
the spec; `Expr.h` is not among the sources. -/
structure ExprMeta where
  deterministic : Bool
  distinctFields : List String
deriving DecidableEq, Repr

/-- Static shape of a compiled node: `ConstantExpr`, `FieldReference`
(by name, or by index for dereferences), a special form, or an `Expr`
holding a registered vector function (whose registry determinism bit is
recorded at construction).  A `LambdaExpr` carries its parameter names and
the number of capture references; its children list is the capture
references followed by the body. -/
inductive CKind where
  | constantExpr (value : Int)
  | fieldReference (field : String)
  | fieldReferenceIdx (index : Nat)
  | specialForm (name : String)
  | vectorFunctionExpr (name : String) (deterministicFlag : Bool)
  | lambdaExpr (signature : List String) (numCaptures : Nat)
deriving DecidableEq, Repr

/-- A compiled expression.  `eid` models C++ pointer identity (allocated
from the compilation counter); `multiplyReferenced`, the cached metadata
and the `defaultNullRowsSkipped` runtime stat are the mutable parts of the
node. -/
inductive CExpr where
  | mk (eid : Nat) (ty : VType) (kind : CKind) (children : List CExpr)
      (multiplyReferenced : Bool) (meta : Option ExprMeta)
      (statsDefaultNullRowsSkipped : Bool)

def CExpr.eid : CExpr → Nat
  | .mk i _ _ _ _ _ _ => i

def CExpr.ty : CExpr → VType
  | .mk _ t _ _ _ _ _ => t

def CExpr.kind : CExpr → CKind
  | .mk _ _ k _ _ _ _ => k

def CExpr.children : CExpr → List CExpr
  | .mk _ _ _ cs _ _ _ => cs

def CExpr.multiplyReferenced : CExpr → Bool
  | .mk _ _ _ _ m _ _ => m

def CExpr.meta : CExpr → Option ExprMeta
  | .mk _ _ _ _ _ md _ => md

def CExpr.statsDefaultNullRowsSkipped : CExpr → Bool
  | .mk _ _ _ _ _ _ st => st

/-- The `isConstantExpr()` test: the node is a literal `ConstantExpr`. -/
def CExpr.isConstantExprNode : CExpr → Bool
  | .mk _ _ (.constantExpr _) _ _ _ _ => true
  | _ => false

/-- The constant value of a literal `ConstantExpr` node
(`ConstantExpr::value()`). -/
def CExpr.constantValue : CExpr → Option Int
  | .mk _ _ (.constantExpr v) _ _ _ _ => some v
  | _ => none

/-- `Expr::setMultiplyReferenced`. -/
def CExpr.setMultiplyReferenced : CExpr → CExpr
  | .mk i t k cs _ md st => .mk i t k cs true md st

/-- `Expr::clearMetaData`. -/
def CExpr.clearMetaData : CExpr → CExpr
  | .mk i t k cs m _ st => .mk i t k cs m none st

/-- `ConstantExpr::setDefaultNullRowsSkipped`. -/
def CExpr.setDefaultNullRowsSkipped : CExpr → Bool → CExpr
  | .mk i t k cs m md _, b => .mk i t k cs m md b

/-- The capture references of a compiled `LambdaExpr`. -/
def CExpr.lambdaCaptures (e : CExpr) : List CExpr :=
  match e.kind with
  | .lambdaExpr _ numCaptures => e.children.take numCaptures
  | _ => []

/-- Determinism of a node shape by itself.  Modelled from the spec:
constants, field references, the built-in special forms and lambdas are
deterministic; a function expression carries the registry metadata bit. -/
def CKind.deterministicOf : CKind → Bool
  | .vectorFunctionExpr _ det => det
  | _ => true

/-- Order-preserving union of field name lists (no duplicates added). -/
def mergeFields (a b : List String) : List String :=
  a ++ b.filter (fun n => !a.contains n)

def unionFields (ms : List ExprMeta) : List String :=
  ms.foldl (fun acc m => mergeFields acc m.distinctFields) []

/- `Expr::computeMetadata`, modelled from the spec: a node is
deterministic when its own shape and all its relevant children are; its
distinct fields are its own referenced column (for an input-less field
reference) together with those of the relevant children.  A
`ConstantExpr` has no inputs and no fields; a lambda draws its fields from
its capture references (`LambdaExpr` overrides metadata computation). -/
mutual
def CExpr.computeMetaOf : CExpr → ExprMeta
  | .mk _ _ kind children _ _ _ =>
      let ms := CExpr.computeMetaList children
      match kind with
      | .constantExpr _ => { deterministic := true, distinctFields := [] }
      | .fieldReference f =>
          { deterministic := ms.all (fun m => m.deterministic),
            distinctFields :=
              if children.isEmpty then [f] else unionFields ms }
      | .fieldReferenceIdx _ =>
          { deterministic := ms.all (fun m => m.deterministic),
            distinctFields := unionFields ms }
      | .specialForm _ =>
          { deterministic := ms.all (fun m => m.deterministic),
            distinctFields := unionFields ms }
      | .vectorFunctionExpr _ det =>
          { deterministic := det && ms.all (fun m => m.deterministic),
            distinctFields := unionFields ms }
      | .lambdaExpr _ numCaptures =>
          { deterministic := ms.all (fun m => m.deterministic),
            distinctFields := unionFields (ms.take numCaptures) }
def CExpr.computeMetaList : List CExpr → List ExprMeta
  | [] => []
  | e :: es => CExpr.computeMetaOf e :: CExpr.computeMetaList es
end

/-- `Expr::computeMetadata` (the mutation): store the computed metadata in
the node. -/
def CExpr.withComputedMeta (e : CExpr) : CExpr :=
  match e with
  | .mk i t k cs m _ st => .mk i t k cs m (some (CExpr.computeMetaOf e)) st

/-- The `isConstant()` metadata predicate.  Modelled from the spec: the
node is a deterministic function of its inputs and references no input
columns. -/
def CExpr.isConstant (e : CExpr) : Bool :=
  match e.meta with
  | some m => m.deterministic && m.distinctFields.isEmpty
  | none => false

/-! ### Scopes and compilation state -/

/-- Embeds `Scope` of ExprCompiler.cpp: the lambda formal parameter names,
the capture lists (three lists kept in lockstep by `addCapture`), the
per-scope deduplication map `visited` (an association list compared with
`ITypedExpr` structural equality), and the stash of rewritten
expressions. -/
structure ScopeR where
  locals : List String
  capture : List String
  captureReferences : List CExpr
  captureFieldAccesses : List TypedExpr
  visited : List (TypedExpr × CExpr)
  rewrittenExpressions : List TypedExpr

def emptyScope (locals : List String) : ScopeR :=
  { locals := locals, capture := [], captureReferences := [],
    captureFieldAccesses := [], visited := [],
    rewrittenExpressions := [] }

/-- `Scope::addCapture`. -/
def ScopeR.addCapture (s : ScopeR) (reference : CExpr)
    (fieldAccess : TypedExpr) (field : String) : ScopeR :=
  { s with
    capture := s.capture ++ [field],
    captureReferences := s.captureReferences ++ [reference],
    captureFieldAccesses := s.captureFieldAccesses ++ [fieldAccess] }

/-- Compilation state: the scope stack (head innermost, the last scope is
the parentless top-level scope), the id counter modelling `make_shared`
pointer identity, and the `ExprSet` state: its per-batch reset
registrations (`addToReset`) and its evaluation/memoization state, which
constant folding contaminates and `ExprSet::clear()` resets (modelled from
the spec: the driver clears the evaluation state so later compilation is
not contaminated).  `hasExecCtx` is the `exprSet->execCtx()` null test. -/
structure CState where
  scopes : List ScopeR
  nextId : Nat
  resetIds : List Nat
  evalContaminated : Bool
  hasExecCtx : Bool

/-- Allocate a fresh node id (`std::make_shared`). -/
def freshId (st : CState) : Nat × CState :=
  (st.nextId, { st with nextId := st.nextId + 1 })

def updateHeadScope (f : ScopeR → ScopeR) : List ScopeR → List ScopeR
  | [] => []
  | s :: rest => f s :: rest

/-- `getAlreadyCompiled`: look up by structural equality in the visited
map. -/
def lookupVisited (expr : TypedExpr) :
    List (TypedExpr × CExpr) → Option CExpr
  | [] => none
  | (k, v) :: rest =>
      if TypedExpr.beq k expr then some v else lookupVisited expr rest

/-- `visited[expr] = compiled`: insert or overwrite under structural
equality. -/
def insertVisited (expr : TypedExpr) (ce : CExpr) :
    List (TypedExpr × CExpr) → List (TypedExpr × CExpr)
  | [] => [(expr, ce)]
  | (k, v) :: rest =>
      if TypedExpr.beq k expr then (expr, ce) :: rest
      else (k, v) :: insertVisited expr ce rest

/-- Outcome of the speculative one-row evaluation inside
`tryFoldIfConstant` (`expr->eval` over the singleton row): a constant
value, a thrown `VeloxUserError`, or any other (system) error. -/
inductive FoldOutcome where
  | value (v : Int)
  | userError (message : String)
  | systemError (message : String)

/-- Compilation errors: `VELOX_USER_FAIL` and friends produce user errors;
`VELOX_CHECK` / `VELOX_UNSUPPORTED` failures and propagated non-user
exceptions are system errors; `outOfFuel` is the fuel artifact of the
embedding. -/
inductive CompileError where
  | veloxUserError (message : String)
  | veloxSystemError (message : String)
  | outOfFuel
deriving DecidableEq, Repr

/-- Registry metadata of a resolved function
(`exec::VectorFunctionMetadata`, consumed interface). -/
structure FnMeta where
  deterministic : Bool
  supportsFlattening : Bool
deriving DecidableEq, Repr

/-- The ambient configuration of one `compileExpressions` run: the
registered rewrites, the special form registry, the two function
registries (consumed interfaces, spec section 6.1), the precomputed
flattening candidates, the folding flag, and the abstract one-row
evaluation used by `tryFoldIfConstant`. -/
structure Config where
  queryRewrites : List (TypedExpr → Option TypedExpr)
  specialFormNames : List String
  vectorFnLookup : String → List VType → List (Option Int) → Option FnMeta
  simpleFnLookup : String → List VType → Option (VType × FnMeta)
  flatteningCandidates : List String
  enableConstantFolding : Bool
  foldEval : CExpr → FoldOutcome

/-! ### Compiler helpers (embedded from ExprCompiler.cpp, in source
order) -/

/-- `allInputTypesEquivalent` over an input list: every input type is
equivalent to the first. -/
def allInputTypesEquivalentL (inputs : List TypedExpr) : Bool :=
  match inputs with
  | [] => true
  | t0 :: rest => rest.all (fun t => VType.beq t0.tyOf t.tyOf)

/-- `allInputTypesEquivalent` of ExprCompiler.cpp. -/
def allInputTypesEquivalent (expr : TypedExpr) : Bool :=
  allInputTypesEquivalentL expr.inputsOf

/-- `shouldFlatten`: AND and OR always flatten; a registry-declared
candidate flattens when its inputs are mutually type-equivalent. -/
def shouldFlatten (cfg : Config) (expr : TypedExpr) : Option String :=
  match expr with
  | .call _ name _ =>
      if name = "and" ∨ name = "or" ∨
          (cfg.flatteningCandidates.contains name
            ∧ allInputTypesEquivalent expr) then
        some name
      else none
  | _ => none

/-- `isCall` of ExprCompiler.cpp. -/
def isCallNamed (expr : TypedExpr) (name : String) : Bool :=
  match expr with
  | .call _ n _ => n == name
  | _ => false

/- `flattenInput`: recursively splice the inputs of nested calls to
`flattenCall` while the input types stay mutually equivalent; stop the
branch otherwise. -/
mutual
def flattenInput (flattenCall : String) : TypedExpr → List TypedExpr
  | .call ty name inputs =>
      if name == flattenCall && allInputTypesEquivalentL inputs then
        flattenInputList flattenCall inputs
      else [.call ty name inputs]
  | e => [e]
def flattenInputList (flattenCall : String) :
    List TypedExpr → List TypedExpr
  | [] => []
  | e :: es =>
      flattenInput flattenCall e ++ flattenInputList flattenCall es
end

/-- `captureFieldReference`: walk from the referencing scope outward while
the scope has a parent; stop at the first scope that defines or already
captures the field, adding the capture everywhere before it. -/
def captureFieldReference (reference : CExpr) (fieldAccess : TypedExpr)
    (field : String) : List ScopeR → List ScopeR
  | [] => []
  | [top] => [top]
  | s :: rest =>
      if s.locals.contains field || s.capture.contains field then s :: rest
      else s.addCapture reference fieldAccess field
        :: captureFieldReference reference fieldAccess field rest

/-- `tryFoldIfConstant`: when the built node is a literal constant and the
`ExprSet` has an execution context, evaluate it over a one-row batch; wrap
a successful value as a fresh `ConstantExpr`, inheriting
`defaultNullRowsSkipped` from the node or any of its inputs; swallow
`VeloxUserError` (keeping the node); propagate every other error.  The
evaluation contaminates the `ExprSet` evaluation state. -/
def tryFoldIfConstant (cfg : Config) (expr : CExpr) (st : CState) :
    Except CompileError (CExpr × CState) :=
  if expr.isConstantExprNode && st.hasExecCtx then
    let stEval := { st with evalContaminated := true }
    match cfg.foldEval expr with
    | .value v =>
        let (eid, st2) := freshId stEval
        let dnrs := expr.statsDefaultNullRowsSkipped
          || expr.children.any (fun i => i.statsDefaultNullRowsSkipped)
        let resultExpr : CExpr := .mk eid expr.ty (.constantExpr v) []
          false none false
        .ok (if dnrs then resultExpr.setDefaultNullRowsSkipped true
          else resultExpr, st2)
    | .userError _ => .ok (expr, stEval)
    | .systemError m => .error (.veloxSystemError m)
  else .ok (expr, st)

/-- `getConstantInputs`: the constant values aligned with the compiled
inputs.  (When `isConstant()` holds of a node that is not a literal
`ConstantExpr` the C++ dereferences a null `dynamic_cast`; the model
yields an empty slot.) -/
def getConstantInputs (exprs : List CExpr) : List (Option Int) :=
  exprs.map (fun e => if e.isConstant then e.constantValue else none)

/-- `rewriteExpression`: apply the first registered rewrite that fires;
the flag records whether the result is a new object. -/
def applyRewrites (e : TypedExpr) :
    List (TypedExpr → Option TypedExpr) → Option TypedExpr
  | [] => none
  | r :: rest =>
      match r e with
      | some x => some x
      | none => applyRewrites e rest

def rewriteExpression (cfg : Config) (e : TypedExpr) : TypedExpr × Bool :=
  match applyRewrites e cfg.queryRewrites with
  | some x => (x, true)
  | none => (e, false)

/-- `getSpecialForm`: consult the special form registry and construct the
node; the C++ returns a null pointer for an unregistered name, which the
caller would dereference — modelled as a system error. -/
def getSpecialFormNode (cfg : Config) (name : String) (ty : VType)
    (children : List CExpr) (st : CState) :
    Except CompileError (CExpr × CState) :=
  if cfg.specialFormNames.contains name then
    let (eid, st1) := freshId st
    .ok (.mk eid ty (.specialForm name) children false none false, st1)
  else .error (.veloxSystemError ("special form not registered: " ++ name))

/-- `compileCall`: a registered special form, else a vector function, else
a simple function (whose declared return type must be equivalent to the
IR type), else a function-not-registered user error. -/
def compileCall (cfg : Config) (expr : TypedExpr) (inputs : List CExpr)
    (st : CState) : Except CompileError (CExpr × CState) :=
  match expr with
  | .call resultType name _ =>
      let inputTypes := inputs.map (fun i => i.ty)
      if cfg.specialFormNames.contains name then
        let (eid, st1) := freshId st
        .ok (.mk eid resultType (.specialForm name) inputs false none false,
          st1)
      else
        match cfg.vectorFnLookup name inputTypes
            (getConstantInputs inputs) with
        | some fm =>
            let (eid, st1) := freshId st
            .ok (.mk eid resultType
              (.vectorFunctionExpr name fm.deterministic) inputs
              false none false, st1)
        | none =>
            match cfg.simpleFnLookup name inputTypes with
            | some (retTy, fm) =>
                if VType.beq resultType retTy then
                  let (eid, st1) := freshId st
                  .ok (.mk eid resultType
                    (.vectorFunctionExpr name fm.deterministic) inputs
                    false none false, st1)
                else
                  .error (.veloxUserError
                    ("Found incompatible return types for " ++ name))
            | none =>
                .error (.veloxUserError
                  ("Scalar function name not registered: " ++ name))
  | _ => .error (.veloxSystemError "asUnchecked CallTypedExpr")

/-- `compileCast`: exactly one input; when the target type equals the
child type, short-circuit to the compiled child; otherwise construct the
`try_cast` or `cast` special form according to the try flag. -/
def compileCast (cfg : Config) (expr : TypedExpr) (inputs : List CExpr)
    (st : CState) : Except CompileError (CExpr × CState) :=
  match inputs with
  | [child] =>
      if VType.beq expr.tyOf child.ty then .ok (child, st)
      else
        let castName :=
          match expr with
          | .castTE _ _ true => "try_cast"
          | _ => "cast"
        getSpecialFormNode cfg castName expr.tyOf inputs st
  | _ => .error (.veloxSystemError "VELOX_CHECK_EQ(1, inputs.size())")

/-- Sequential compilation of a list of expressions, threading the
state. -/
def compileSeq
    (comp : TypedExpr → CState → Except CompileError (CExpr × CState)) :
    List TypedExpr → CState → Except CompileError (List CExpr × CState)
  | [], st => .ok ([], st)
  | e :: es, st =>
      match comp e st with
      | .error err => .error err
      | .ok (c, st1) =>
          match compileSeq comp es st1 with
          | .error err => .error err
          | .ok (cs, st2) => .ok (c :: cs, st2)

/-- The loop of `compileInputs`: an `InputTypedExpr` child is legal only
under a field access (and is not compiled); under a flattening parent each
child is flattened and the pieces compiled in order; otherwise the child
is compiled as a single input. -/
def inputsLoop
    (comp : TypedExpr → CState → Except CompileError (CExpr × CState))
    (parentIsFieldAccess : Bool) (flattenIf : Option String) :
    List TypedExpr → CState → Except CompileError (List CExpr × CState)
  | [], st => .ok ([], st)
  | input :: rest, st =>
      if input.isInputKind then
        if parentIsFieldAccess then
          inputsLoop comp parentIsFieldAccess flattenIf rest st
        else
          .error (.veloxSystemError
            "An InputReference can only occur under a FieldReference")
      else
        match flattenIf with
        | some name =>
            match compileSeq comp (flattenInput name input) st with
            | .error err => .error err
            | .ok (cs1, st1) =>
                match inputsLoop comp parentIsFieldAccess flattenIf
                    rest st1 with
                | .error err => .error err
                | .ok (cs2, st2) => .ok (cs1 ++ cs2, st2)
        | none =>
            match comp input st with
            | .error err => .error err
            | .ok (c, st1) =>
                match inputsLoop comp parentIsFieldAccess flattenIf
                    rest st1 with
                | .error err => .error err
                | .ok (cs, st2) => .ok (c :: cs, st2)

/-- `compileInputs` of ExprCompiler.cpp. -/
def compileInputsH
    (comp : TypedExpr → CState → Except CompileError (CExpr × CState))
    (cfg : Config) (expr : TypedExpr) (st : CState) :
    Except CompileError (List CExpr × CState) :=
  inputsLoop comp expr.isFieldAccessKind (shouldFlatten cfg expr)
    expr.inputsOf st

/-- The `field()` of a compiled `FieldReference`. -/
def CExpr.fieldOf (e : CExpr) : String :=
  match e.kind with
  | .fieldReference f => f
  | _ => ""

/-- The capture-materialization loop of `compileLambda`: reuse an already
compiled `FieldReference` from the parent scope, or freshly materialize
one and insert it into the parent scope visited map. -/
def materializeCaptures :
    List (CExpr × TypedExpr) → List (TypedExpr × CExpr) → Nat →
      List CExpr × List (TypedExpr × CExpr) × Nat
  | [], visited, nid => ([], visited, nid)
  | (inner, fa) :: rest, visited, nid =>
      match lookupVisited fa visited with
      | some reference =>
          let (refs, visited2, nid2) := materializeCaptures rest visited nid
          (reference :: refs, visited2, nid2)
      | none =>
          let reference : CExpr :=
            .mk nid inner.ty (.fieldReference inner.fieldOf) [] false
              none false
          let (refs, visited2, nid2) :=
            materializeCaptures rest (insertVisited fa reference visited)
              (nid + 1)
          (reference :: refs, visited2, nid2)

/-- `compileLambda`: open a child scope whose locals are the signature
names, compile the body there, materialize the recorded captures into the
parent scope, and build the `LambdaExpr` with the FUNCTION type. -/
def compileLambdaH
    (comp : TypedExpr → CState → Except CompileError (CExpr × CState))
    (paramNames : List String) (paramTypes : List VType) (body : TypedExpr)
    (st : CState) : Except CompileError (CExpr × CState) :=
  let st1 := { st with scopes := emptyScope paramNames :: st.scopes }
  match comp body st1 with
  | .error err => .error err
  | .ok (cbody, st2) =>
      match st2.scopes with
      | lambdaScope :: parentScope :: outer =>
          let (captureReferences, parentVisited, nid) :=
            materializeCaptures
              (lambdaScope.captureReferences.zip
                lambdaScope.captureFieldAccesses)
              parentScope.visited st2.nextId
          let functionType := VType.functionT paramTypes cbody.ty
          let lambdaNode : CExpr := .mk nid functionType
            (.lambdaExpr paramNames captureReferences.length)
            (captureReferences ++ [cbody]) false none false
          let st3 := { st2 with
            scopes := { parentScope with visited := parentVisited }
              :: outer,
            nextId := nid + 1 }
          .ok (lambdaNode, st3)
      | _ => .error (.veloxSystemError "lambda scope stack")

/-- The constant-folding step of `compileRewrittenExpression` (lines
554-565): when folding is enabled and the built node is not a constant,
attempt folding and then clear the `ExprSet` evaluation state. -/
def foldStep (cfg : Config) (result : CExpr) (st : CState) :
    Except CompileError (CExpr × CState) :=
  if cfg.enableConstantFolding && !result.isConstant then
    match tryFoldIfConstant cfg result st with
    | .error err => .error err
    | .ok (compiled, st1) =>
        .ok (compiled, { st1 with evalContaminated := false })
  else .ok (result, st)

/-- The visited map of the current (innermost) scope. -/
def headVisited (st : CState) : List (TypedExpr × CExpr) :=
  match st.scopes with
  | [] => []
  | s :: _ => s.visited

/-- The kind switch of `compileRewrittenExpression` (the `switch` on
`expr->kind()`): builds the compiled node from the compiled inputs. -/
def buildNode
    (comp : TypedExpr → CState → Except CompileError (CExpr × CState))
    (cfg : Config) (expr : TypedExpr) (compiledInputs : List CExpr)
    (st1 : CState) : Except CompileError (CExpr × CState) :=
  match expr with
  | .concatTE ty _ =>
      getSpecialFormNode cfg "row_constructor" ty compiledInputs st1
  | .castTE _ _ _ => compileCast cfg expr compiledInputs st1
  | .call _ _ _ => compileCall cfg expr compiledInputs st1
  | .fieldAccess ty name inputs =>
      let (eid, stA) := freshId st1
      let fieldReference : CExpr :=
        .mk eid ty (.fieldReference name) compiledInputs false none false
      let isInputColumn :=
        match inputs with
        | [] => true
        | i :: _ => i.isInputKind
      let stB :=
        if isInputColumn then
          { stA with
            scopes := captureFieldReference fieldReference
              (.fieldAccess ty name inputs) name stA.scopes }
        else stA
      .ok (fieldReference, stB)
  | .dereference ty index _ =>
      let (eid, stA) := freshId st1
      .ok (.mk eid ty (.fieldReferenceIdx index) compiledInputs
        false none false, stA)
  | .inputRef _ =>
      .error (.veloxSystemError "InputTypedExpr is not supported")
  | .constant ty v =>
      let (eid, stA) := freshId st1
      .ok (.mk eid ty (.constantExpr v) [] false none false, stA)
  | .lambdaTE ns ts body => compileLambdaH comp ns ts body st1

/-- `compileRewrittenExpression`.  On a visited hit of a node not yet
multiply referenced: register it for per-batch reset, mark it, clear and
recompute its metadata (the stored map entry reflects the mutation) and
return it.  Otherwise compile the inputs, build the node by kind, compute
its metadata, run the folding step, and record the result under the
expression in the scope visited map. -/
def compileRewritten
    (comp : TypedExpr → CState → Except CompileError (CExpr × CState))
    (cfg : Config) (expr : TypedExpr) (st : CState) :
    Except CompileError (CExpr × CState) :=
  match lookupVisited expr (headVisited st) with
  | some alreadyCompiled =>
      if !alreadyCompiled.multiplyReferenced then
        let promoted :=
          (alreadyCompiled.setMultiplyReferenced.clearMetaData).withComputedMeta
        let st1 := { st with
          resetIds := st.resetIds ++ [alreadyCompiled.eid],
          scopes := updateHeadScope
            (fun s => { s with visited := insertVisited expr promoted s.visited })
            st.scopes }
        .ok (promoted, st1)
      else .ok (alreadyCompiled, st)
  | none =>
      match compileInputsH comp cfg expr st with
      | .error err => .error err
      | .ok (compiledInputs, st1) =>
          match buildNode comp cfg expr compiledInputs st1 with
          | .error err => .error err
          | .ok (result0, st2) =>
              let result := result0.withComputedMeta
              match foldStep cfg result st2 with
              | .error err => .error err
              | .ok (compiled, st3) =>
                  let st4 := { st3 with
                    scopes := updateHeadScope
                      (fun s =>
                        { s with
                          visited := insertVisited expr compiled s.visited })
                      st3.scopes }
                  .ok (compiled, st4)

/-- `compileExpression`: rewrite, stash a newly materialized IR node in
the current scope, and compile the rewritten expression. -/
def compileExpressionStep
    (comp : TypedExpr → CState → Except CompileError (CExpr × CState))
    (cfg : Config) (expr : TypedExpr) (st : CState) :
    Except CompileError (CExpr × CState) :=
  let (rewritten, fired) := rewriteExpression cfg expr
  let st1 :=
    if fired then
      { st with
        scopes := updateHeadScope
          (fun s =>
            { s with
              rewrittenExpressions := s.rewrittenExpressions ++ [rewritten] })
          st.scopes }
    else st
  compileRewritten comp cfg rewritten st1

/-- The recursive compiler, driven by fuel; each recursion level passes
itself one level down. -/
def compileE (cfg : Config) :
    Nat → TypedExpr → CState → Except CompileError (CExpr × CState)
  | 0, _, _ => .error .outOfFuel
  | fuel + 1, expr, st => compileExpressionStep (compileE cfg fuel) cfg expr st

/-- The state of `compileExpressions`: one empty top-level scope shared by
the whole forest. -/
def initialState (hasExecCtx : Bool) : CState :=
  { scopes := [emptyScope []], nextId := 0, resetIds := [],
    evalContaminated := false, hasExecCtx := hasExecCtx }

/-- `compileExpressions` of ExprCompiler.cpp over a forest of sources. -/
def compileExpressions (cfg : Config) (fuel : Nat)
    (sources : List TypedExpr) (hasExecCtx : Bool) :
    Except CompileError (List CExpr × CState) :=
  compileSeq (compileE cfg fuel) sources (initialState hasExecCtx)

/-! ### Basic lemmas about the compiled-node mutations and the visited
map -/

theorem CExpr.eid_setMultiplyReferenced (e : CExpr) :
    e.setMultiplyReferenced.eid = e.eid := by
  cases e
  rfl

theorem CExpr.eid_clearMetaData (e : CExpr) :
    e.clearMetaData.eid = e.eid := by
  cases e
  rfl

theorem CExpr.eid_withComputedMeta (e : CExpr) :
    e.withComputedMeta.eid = e.eid := by
  cases e
  rfl

theorem CExpr.mult_setMultiplyReferenced (e : CExpr) :
    e.setMultiplyReferenced.multiplyReferenced = true := by
  cases e
  rfl

theorem CExpr.mult_clearMetaData (e : CExpr) :
    e.clearMetaData.multiplyReferenced = e.multiplyReferenced := by
  cases e
  rfl

theorem CExpr.mult_withComputedMeta (e : CExpr) :
    e.withComputedMeta.multiplyReferenced = e.multiplyReferenced := by
  cases e
  rfl

theorem CExpr.meta_withComputedMeta (e : CExpr) :
    e.withComputedMeta.meta = some e.computeMetaOf := by
  cases e
  rfl

theorem CExpr.kind_withComputedMeta (e : CExpr) :
    e.withComputedMeta.kind = e.kind := by
  cases e
  rfl

theorem CExpr.isConstantExprNode_withComputedMeta (e : CExpr) :
    e.withComputedMeta.isConstantExprNode = e.isConstantExprNode := by
  cases e with
  | mk i t k cs m md sb => cases k <;> rfl

/-- A literal constant node with computed metadata satisfies the
`isConstant()` metadata predicate. -/
theorem CExpr.isConstant_withComputedMeta_of_constNode (e : CExpr)
    (h : e.isConstantExprNode = true) :
    e.withComputedMeta.isConstant = true := by
  cases e with
  | mk i t k cs m md sb =>
      cases k <;> simp [CExpr.isConstantExprNode] at h <;>
        simp [CExpr.withComputedMeta, CExpr.isConstant, CExpr.meta,
          CExpr.computeMetaOf]

theorem lookupVisited_insert (e : TypedExpr) (c : CExpr) :
    ∀ l, lookupVisited e (insertVisited e c l) = some c := by
  intro l
  induction l with
  | nil => simp [insertVisited, lookupVisited, TypedExpr.beq_refl]
  | cons kv rest ih =>
      obtain ⟨k, v⟩ := kv
      by_cases hk : TypedExpr.beq k e = true
      · simp [insertVisited, hk, lookupVisited, TypedExpr.beq_refl]
      · simp [insertVisited, hk, lookupVisited, ih]

theorem headVisited_updateHead_visited (st : CState)
    (f : List (TypedExpr × CExpr) → List (TypedExpr × CExpr))
    (hs : st.scopes ≠ []) :
    headVisited { st with
      scopes := updateHeadScope
        (fun s => { s with visited := f s.visited }) st.scopes }
      = f (headVisited st) := by
  cases hsc : st.scopes with
  | nil => exact absurd hsc hs
  | cons s rest => simp [headVisited, hsc, updateHeadScope]

theorem headVisited_updateHead_rewritten (st : CState) (e : TypedExpr) :
    headVisited { st with
      scopes := updateHeadScope
        (fun s =>
          { s with
            rewrittenExpressions := s.rewrittenExpressions ++ [e] })
        st.scopes }
      = headVisited st := by
  cases hsc : st.scopes with
  | nil => simp [headVisited, hsc, updateHeadScope]
  | cons s rest => simp [headVisited, hsc, updateHeadScope]

/-- `tryFoldIfConstant` never touches the scope stack. -/
theorem tryFoldIfConstant_scopes (cfg : Config) (e : CExpr) (st : CState)
    (r : CExpr) (st1 : CState)
    (h : tryFoldIfConstant cfg e st = .ok (r, st1)) :
    st1.scopes = st.scopes := by
  unfold tryFoldIfConstant at h
  by_cases hg : (e.isConstantExprNode && st.hasExecCtx) = true
  · rw [if_pos hg] at h
    cases hev : cfg.foldEval e <;> rw [hev] at h
    · simp only [freshId] at h
      cases h
      rfl
    · cases h
      rfl
    · cases h
  · rw [if_neg hg] at h
    cases h
    rfl

/-- The folding step never touches the scope stack. -/
theorem foldStep_scopes (cfg : Config) (e : CExpr) (st : CState)
    (r : CExpr) (st1 : CState) (h : foldStep cfg e st = .ok (r, st1)) :
    st1.scopes = st.scopes := by
  unfold foldStep at h
  by_cases hg : (cfg.enableConstantFolding && !e.isConstant) = true
  · rw [if_pos hg] at h
    cases htf : tryFoldIfConstant cfg e st with
    | error err =>
        rw [htf] at h
        cases h
    | ok pr =>
        obtain ⟨c, st2⟩ := pr
        rw [htf] at h
        cases h
        exact tryFoldIfConstant_scopes cfg e st r st2 htf
  · rw [if_neg hg] at h
    cases h
    rfl

/-- The folding step of the driver never replaces a node whose metadata
has just been computed: the driver attempts folding only when the node is
not constant by metadata, while `tryFoldIfConstant` folds only literal
`ConstantExpr` nodes, which are always constant by metadata. -/
theorem foldStep_withComputedMeta (cfg : Config) (e : CExpr)
    (st : CState) :
    foldStep cfg e.withComputedMeta st =
      .ok (e.withComputedMeta,
        if cfg.enableConstantFolding && !e.withComputedMeta.isConstant then
          { st with evalContaminated := false }
        else st) := by
  unfold foldStep
  by_cases hg :
      (cfg.enableConstantFolding && !e.withComputedMeta.isConstant) = true
  · rw [if_pos hg, if_pos hg]
    have hnode : e.withComputedMeta.isConstantExprNode = false := by
      by_cases hn : e.isConstantExprNode = true
      · have := CExpr.isConstant_withComputedMeta_of_constNode e hn
        simp [this] at hg
      · rw [CExpr.isConstantExprNode_withComputedMeta]
        simp at hn
        exact hn
    simp [tryFoldIfConstant, hnode]
  · rw [if_neg hg, if_neg hg]

/-! ### Scope-stack shape preservation -/

/-- A compilation function that preserves the length of the scope stack
(every scope pushed is popped again). -/
def PreservesScopes
    (comp : TypedExpr → CState → Except CompileError (CExpr × CState)) :
    Prop :=
  ∀ e s r ss, comp e s = .ok (r, ss) → ss.scopes.length = s.scopes.length

theorem captureFieldReference_length (r : CExpr) (fa : TypedExpr)
    (f : String) :
    ∀ sc, (captureFieldReference r fa f sc).length = sc.length := by
  intro sc
  induction sc with
  | nil => rfl
  | cons s rest ih =>
      cases rest with
      | nil => rfl
      | cons s2 r2 =>
          by_cases hmem : f ∈ s.locals ∨ f ∈ s.capture
          · simp [captureFieldReference, hmem]
          · simp [captureFieldReference, hmem, ih]

theorem updateHeadScope_length (f : ScopeR → ScopeR) (sc : List ScopeR) :
    (updateHeadScope f sc).length = sc.length := by
  cases sc <;> rfl

theorem getSpecialFormNode_scopes (cfg : Config) (name : String)
    (ty : VType) (cs : List CExpr) (st : CState) (r : CExpr) (st1 : CState)
    (h : getSpecialFormNode cfg name ty cs st = .ok (r, st1)) :
    st1.scopes = st.scopes := by
  unfold getSpecialFormNode at h
  split at h
  · simp only [freshId] at h
    cases h
    rfl
  · cases h

theorem compileCall_scopes (cfg : Config) (expr : TypedExpr)
    (inputs : List CExpr) (st : CState) (r : CExpr) (st1 : CState)
    (h : compileCall cfg expr inputs st = .ok (r, st1)) :
    st1.scopes = st.scopes := by
  unfold compileCall at h
  cases expr with
  | call ty name is =>
      dsimp only at h
      by_cases hsf : cfg.specialFormNames.contains name = true
      · rw [if_pos hsf] at h
        simp only [freshId] at h
        cases h
        rfl
      · rw [if_neg hsf] at h
        cases hv : cfg.vectorFnLookup name (inputs.map fun i => i.ty)
            (getConstantInputs inputs) with
        | some fm =>
            rw [hv] at h
            simp only [freshId] at h
            cases h
            rfl
        | none =>
            rw [hv] at h
            cases hsim : cfg.simpleFnLookup name
                (inputs.map fun i => i.ty) with
            | some pr =>
                obtain ⟨retTy, fm⟩ := pr
                rw [hsim] at h
                dsimp only at h
                by_cases hb : VType.beq ty retTy = true
                · rw [if_pos hb] at h
                  simp only [freshId] at h
                  cases h
                  rfl
                · rw [if_neg hb] at h
                  cases h
            | none =>
                rw [hsim] at h
                cases h
  | constant ty v => cases h
  | inputRef ty => cases h
  | fieldAccess ty n is => cases h
  | dereference ty i is => cases h
  | castTE ty is f => cases h
  | concatTE ty is => cases h
  | lambdaTE ns ts b => cases h

theorem compileCast_scopes (cfg : Config) (expr : TypedExpr)
    (inputs : List CExpr) (st : CState) (r : CExpr) (st1 : CState)
    (h : compileCast cfg expr inputs st = .ok (r, st1)) :
    st1.scopes = st.scopes := by
  unfold compileCast at h
  cases inputs with
  | nil => cases h
  | cons child rest =>
      cases rest with
      | nil =>
          dsimp only at h
          by_cases hb : VType.beq expr.tyOf child.ty = true
          · rw [if_pos hb] at h
            cases h
            rfl
          · rw [if_neg hb] at h
            exact getSpecialFormNode_scopes cfg _ _ _ st r st1 h
      | cons c2 r2 => cases h

theorem compileSeq_len
    (comp : TypedExpr → CState → Except CompileError (CExpr × CState))
    (hc : PreservesScopes comp) :
    ∀ es st cs st2, compileSeq comp es st = .ok (cs, st2) →
      st2.scopes.length = st.scopes.length := by
  intro es
  induction es with
  | nil =>
      intro st cs st2 h
      cases h
      rfl
  | cons e rest ih =>
      intro st cs st2 h
      unfold compileSeq at h
      cases h1 : comp e st with
      | error err =>
          rw [h1] at h
          cases h
      | ok pr =>
          obtain ⟨c, stm⟩ := pr
          rw [h1] at h
          dsimp only at h
          cases h2 : compileSeq comp rest stm with
          | error err =>
              rw [h2] at h
              cases h
          | ok pr2 =>
              obtain ⟨cs2, stf⟩ := pr2
              rw [h2] at h
              cases h
              rw [ih _ _ _ h2]
              exact hc e st c stm h1

theorem inputsLoop_len
    (comp : TypedExpr → CState → Except CompileError (CExpr × CState))
    (hc : PreservesScopes comp) (pfa : Bool) (fl : Option String) :
    ∀ es st cs st2, inputsLoop comp pfa fl es st = .ok (cs, st2) →
      st2.scopes.length = st.scopes.length := by
  intro es
  induction es with
  | nil =>
      intro st cs st2 h
      cases h
      rfl
  | cons input rest ih =>
      intro st cs st2 h
      unfold inputsLoop at h
      by_cases hik : input.isInputKind = true
      · rw [if_pos hik] at h
        by_cases hp : pfa = true
        · rw [if_pos hp] at h
          exact ih st cs st2 h
        · rw [if_neg hp] at h
          cases h
      · rw [if_neg hik] at h
        cases fl with
        | some name =>
            dsimp only at h
            cases h1 : compileSeq comp (flattenInput name input) st with
            | error err =>
                rw [h1] at h
                cases h
            | ok pr =>
                obtain ⟨cs1, stm⟩ := pr
                rw [h1] at h
                dsimp only at h
                cases h2 : inputsLoop comp pfa (some name) rest stm with
                | error err =>
                    rw [h2] at h
                    cases h
                | ok pr2 =>
                    obtain ⟨cs2, stf⟩ := pr2
                    rw [h2] at h
                    cases h
                    rw [ih _ _ _ h2]
                    exact compileSeq_len comp hc _ st cs1 stm h1
        | none =>
            dsimp only at h
            cases h1 : comp input st with
            | error err =>
                rw [h1] at h
                cases h
            | ok pr =>
                obtain ⟨c, stm⟩ := pr
                rw [h1] at h
                dsimp only at h
                cases h2 : inputsLoop comp pfa none rest stm with
                | error err =>
                    rw [h2] at h
                    cases h
                | ok pr2 =>
                    obtain ⟨cs2, stf⟩ := pr2
                    rw [h2] at h
                    cases h
                    rw [ih _ _ _ h2]
                    exact hc input st c stm h1

theorem compileLambdaH_len
    (comp : TypedExpr → CState → Except CompileError (CExpr × CState))
    (hc : PreservesScopes comp) (ns : List String) (ts : List VType)
    (body : TypedExpr) (st : CState) (r : CExpr) (st1 : CState)
    (h : compileLambdaH comp ns ts body st = .ok (r, st1)) :
    st1.scopes.length = st.scopes.length := by
  unfold compileLambdaH at h
  dsimp only at h
  cases h1 : comp body { st with scopes := emptyScope ns :: st.scopes } with
  | error err =>
      rw [h1] at h
      cases h
  | ok pr =>
      obtain ⟨cbody, st2⟩ := pr
      rw [h1] at h
      dsimp only at h
      have hlen := hc body _ cbody st2 h1
      simp only [List.length_cons] at hlen
      cases hsc : st2.scopes with
      | nil =>
          rw [hsc] at h
          cases h
      | cons lam restSc =>
          cases restSc with
          | nil =>
              rw [hsc] at h
              cases h
          | cons parent outer =>
              rw [hsc] at h
              dsimp only at h
              cases hmat : materializeCaptures
                  (lam.captureReferences.zip lam.captureFieldAccesses)
                  parent.visited st2.nextId with
              | mk refs rest2 =>
                  obtain ⟨pv, nid⟩ := rest2
                  rw [hmat] at h
                  cases h
                  rw [hsc] at hlen
                  simp only [List.length_cons] at hlen ⊢
                  omega

theorem buildNode_len
    (comp : TypedExpr → CState → Except CompileError (CExpr × CState))
    (hc : PreservesScopes comp) (cfg : Config) (expr : TypedExpr)
    (cins : List CExpr) (st : CState) (r : CExpr) (st1 : CState)
    (h : buildNode comp cfg expr cins st = .ok (r, st1)) :
    st1.scopes.length = st.scopes.length := by
  unfold buildNode at h
  cases expr with
  | concatTE ty is =>
      rw [getSpecialFormNode_scopes cfg _ _ _ st r st1 h]
  | castTE ty is f =>
      rw [compileCast_scopes cfg _ _ st r st1 h]
  | call ty name is =>
      rw [compileCall_scopes cfg _ _ st r st1 h]
  | fieldAccess ty name is =>
      simp only [freshId] at h
      cases is with
      | nil =>
          dsimp only at h
          cases h
          simp [captureFieldReference_length]
      | cons i irest =>
          dsimp only at h
          by_cases hik : i.isInputKind = true
          · rw [if_pos hik] at h
            cases h
            simp [captureFieldReference_length]
          · rw [if_neg hik] at h
            cases h
            rfl
  | dereference ty idx is =>
      simp only [freshId] at h
      cases h
      rfl
  | inputRef ty => cases h
  | constant ty v =>
      simp only [freshId] at h
      cases h
      rfl
  | lambdaTE ns ts body =>
      exact compileLambdaH_len comp hc ns ts body st r st1 h

theorem compileInputsH_len
    (comp : TypedExpr → CState → Except CompileError (CExpr × CState))
    (hc : PreservesScopes comp) (cfg : Config) (expr : TypedExpr)
    (st : CState) (cs : List CExpr) (st2 : CState)
    (h : compileInputsH comp cfg expr st = .ok (cs, st2)) :
    st2.scopes.length = st.scopes.length := by
  exact inputsLoop_len comp hc _ _ _ st cs st2 h

theorem compileRewritten_len
    (comp : TypedExpr → CState → Except CompileError (CExpr × CState))
    (hc : PreservesScopes comp) (cfg : Config) (expr : TypedExpr)
    (st : CState) (r : CExpr) (st1 : CState)
    (h : compileRewritten comp cfg expr st = .ok (r, st1)) :
    st1.scopes.length = st.scopes.length := by
  unfold compileRewritten at h
  cases hv : lookupVisited expr (headVisited st) with
  | some alreadyCompiled =>
      rw [hv] at h
      dsimp only at h
      cases hmv : alreadyCompiled.multiplyReferenced
      · have hcond : (!alreadyCompiled.multiplyReferenced) = true := by
          rw [hmv]
          rfl
        rw [if_pos hcond] at h
        cases h
        simp [updateHeadScope_length]
      · have hcond : ¬((!alreadyCompiled.multiplyReferenced) = true) := by
          rw [hmv]
          simp
        rw [if_neg hcond] at h
        cases h
        rfl
  | none =>
      rw [hv] at h
      dsimp only at h
      cases hi : compileInputsH comp cfg expr st with
      | error err =>
          rw [hi] at h
          cases h
      | ok pr =>
          obtain ⟨cins, stA⟩ := pr
          rw [hi] at h
          dsimp only at h
          cases hb : buildNode comp cfg expr cins stA with
          | error err =>
              rw [hb] at h
              cases h
          | ok pr2 =>
              obtain ⟨result0, stB⟩ := pr2
              rw [hb] at h
              dsimp only at h
              cases hf : foldStep cfg result0.withComputedMeta stB with
              | error err =>
                  rw [hf] at h
                  cases h
              | ok pr3 =>
                  obtain ⟨compiled, stC⟩ := pr3
                  rw [hf] at h
                  cases h
                  have h1 := compileInputsH_len comp hc cfg expr st cins stA hi
                  have h2 := buildNode_len comp hc cfg expr cins stA
                    result0 stB hb
                  have h3 := foldStep_scopes cfg result0.withComputedMeta
                    stB _ _ hf
                  simp only [updateHeadScope_length, h3, h2, h1]

theorem compileExpressionStep_len
    (comp : TypedExpr → CState → Except CompileError (CExpr × CState))
    (hc : PreservesScopes comp) (cfg : Config) (expr : TypedExpr)
    (st : CState) (r : CExpr) (st1 : CState)
    (h : compileExpressionStep comp cfg expr st = .ok (r, st1)) :
    st1.scopes.length = st.scopes.length := by
  unfold compileExpressionStep at h
  dsimp only at h
  by_cases hf : (rewriteExpression cfg expr).2 = true
  · rw [if_pos hf] at h
    have := compileRewritten_len comp hc cfg (rewriteExpression cfg expr).1
      _ r st1 h
    simpa [updateHeadScope_length] using this
  · rw [if_neg hf] at h
    exact compileRewritten_len comp hc cfg (rewriteExpression cfg expr).1
      st r st1 h

theorem compileE_len (cfg : Config) :
    ∀ fuel : Nat, PreservesScopes (compileE cfg fuel) := by
  intro fuel
  induction fuel with
  | zero =>
      intro e s r ss h
      cases h
  | succ n ih =>
      intro e s r ss h
      exact compileExpressionStep_len (compileE cfg n) ih cfg e s r ss h

/-! ### The visited map after compiling an expression -/

theorem scopes_ne_nil_of_length (st : CState) (n : Nat)
    (h : st.scopes.length = n) (hn : 0 < n) : st.scopes ≠ [] := by
  intro hc
  rw [hc] at h
  simp at h
  omega

/-- After `compileRewrittenExpression` succeeds, the compiled node is
recorded under the expression in the current scope visited map. -/
theorem compileRewritten_lookup
    (comp : TypedExpr → CState → Except CompileError (CExpr × CState))
    (hc : PreservesScopes comp) (cfg : Config) (expr : TypedExpr)
    (st : CState) (r : CExpr) (st1 : CState)
    (h : compileRewritten comp cfg expr st = .ok (r, st1))
    (hs : st.scopes ≠ []) :
    st1.scopes ≠ [] ∧ lookupVisited expr (headVisited st1) = some r := by
  unfold compileRewritten at h
  cases hv : lookupVisited expr (headVisited st) with
  | some alreadyCompiled =>
      rw [hv] at h
      dsimp only at h
      cases hmv : alreadyCompiled.multiplyReferenced
      · have hcond : (!alreadyCompiled.multiplyReferenced) = true := by
          rw [hmv]
          rfl
        rw [if_pos hcond] at h
        cases h
        constructor
        · cases hsc : st.scopes with
          | nil => exact absurd hsc hs
          | cons s rest => simp [hsc, updateHeadScope]
        · cases hsc : st.scopes with
          | nil => exact absurd hsc hs
          | cons s rest =>
              simp [headVisited, hsc, updateHeadScope,
                lookupVisited_insert]
      · have hcond : ¬((!alreadyCompiled.multiplyReferenced) = true) := by
          rw [hmv]
          simp
        rw [if_neg hcond] at h
        cases h
        exact ⟨hs, hv⟩
  | none =>
      rw [hv] at h
      dsimp only at h
      cases hi : compileInputsH comp cfg expr st with
      | error err =>
          rw [hi] at h
          cases h
      | ok pr =>
          obtain ⟨cins, stA⟩ := pr
          rw [hi] at h
          dsimp only at h
          cases hb : buildNode comp cfg expr cins stA with
          | error err =>
              rw [hb] at h
              cases h
          | ok pr2 =>
              obtain ⟨result0, stB⟩ := pr2
              rw [hb] at h
              dsimp only at h
              cases hf : foldStep cfg result0.withComputedMeta stB with
              | error err =>
                  rw [hf] at h
                  cases h
              | ok pr3 =>
                  obtain ⟨compiled, stC⟩ := pr3
                  rw [hf] at h
                  cases h
                  have h1 := compileInputsH_len comp hc cfg expr st cins stA hi
                  have h2 := buildNode_len comp hc cfg expr cins stA
                    result0 stB hb
                  have h3 := foldStep_scopes cfg result0.withComputedMeta
                    stB _ _ hf
                  have hlenC : stC.scopes.length = st.scopes.length := by
                    rw [h3, h2, h1]
                  have hsC : stC.scopes ≠ [] := by
                    apply scopes_ne_nil_of_length stC st.scopes.length hlenC
                    cases hsc : st.scopes with
                    | nil => exact absurd hsc hs
                    | cons s rest => simp [hsc]
                  constructor
                  · cases hsc : stC.scopes with
                    | nil => exact absurd hsc hsC
                    | cons s rest => simp [hsc, updateHeadScope]
                  · cases hsc : stC.scopes with
                    | nil => exact absurd hsc hsC
                    | cons s rest =>
                        simp [headVisited, hsc, updateHeadScope,
                          lookupVisited_insert]

/-- After `compileExpression` succeeds, the compiled node is recorded
under the rewritten expression in the current scope visited map. -/
theorem compileE_lookup (cfg : Config) (fuel : Nat) (a : TypedExpr)
    (st : CState) (e1 : CExpr) (st1 : CState)
    (h : compileE cfg fuel a st = .ok (e1, st1)) (hs : st.scopes ≠ []) :
    st1.scopes ≠ [] ∧
      lookupVisited (rewriteExpression cfg a).1 (headVisited st1)
        = some e1 := by
  cases fuel with
  | zero => cases h
  | succ n =>
      unfold compileE compileExpressionStep at h
      dsimp only at h
      by_cases hf : (rewriteExpression cfg a).2 = true
      · rw [if_pos hf] at h
        have hs2 : (CState.scopes { st with
            scopes := updateHeadScope
              (fun s =>
                { s with
                  rewrittenExpressions := s.rewrittenExpressions
                    ++ [(rewriteExpression cfg a).1] })
              st.scopes }) ≠ [] := by
          cases hsc : st.scopes with
          | nil => exact absurd hsc hs
          | cons s rest => simp [hsc, updateHeadScope]
        exact compileRewritten_lookup (compileE cfg n) (compileE_len cfg n)
          cfg _ _ e1 st1 h hs2
      · rw [if_neg hf] at h
        exact compileRewritten_lookup (compileE cfg n) (compileE_len cfg n)
          cfg _ _ e1 st1 h hs

/-- The hit path of `compileRewrittenExpression`: a visited entry not yet
multiply referenced is promoted, registered for reset, its metadata
cleared and recomputed, and the mutated node returned. -/
theorem compileRewritten_hit
    (comp : TypedExpr → CState → Except CompileError (CExpr × CState))
    (cfg : Config) (expr : TypedExpr) (st : CState) (e1 : CExpr)
    (hlook : lookupVisited expr (headVisited st) = some e1)
    (hm : e1.multiplyReferenced = false) :
    compileRewritten comp cfg expr st =
      .ok (e1.setMultiplyReferenced.clearMetaData.withComputedMeta,
        { st with
          resetIds := st.resetIds ++ [e1.eid],
          scopes := updateHeadScope
            (fun s =>
              { s with
                visited := insertVisited expr
                  e1.setMultiplyReferenced.clearMetaData.withComputedMeta
                  s.visited })
            st.scopes }) := by
  unfold compileRewritten
  rw [hlook]
  dsimp only
  rw [if_pos (by rw [hm]; rfl)]

/-- C4: compiling a second, structurally equal occurrence of an IR node in
the same scope returns the identical compiled node (same id — the model of
pointer identity; structurally equal C++ objects are one Lean value), and
on this first reuse the node is marked multiply referenced, registered for
per-batch reset, and its metadata is cleared and recomputed. -/
theorem C4_cse_soundness (cfg : Config) (fuel : Nat) (a : TypedExpr)
    (st : CState) (e1 : CExpr) (st1 : CState)
    (h1 : compileE cfg fuel a st = .ok (e1, st1))
    (hs : st.scopes ≠ [])
    (hm : e1.multiplyReferenced = false) :
    ∃ st2,
      compileE cfg fuel a st1 =
        .ok (e1.setMultiplyReferenced.clearMetaData.withComputedMeta, st2) ∧
      e1.setMultiplyReferenced.clearMetaData.withComputedMeta.eid
        = e1.eid ∧
      e1.setMultiplyReferenced.clearMetaData.withComputedMeta.multiplyReferenced
        = true ∧
      e1.eid ∈ st2.resetIds ∧
      e1.setMultiplyReferenced.clearMetaData.withComputedMeta.meta
        = some (e1.setMultiplyReferenced.clearMetaData).computeMetaOf := by
  obtain ⟨hs1, hlook⟩ := compileE_lookup cfg fuel a st e1 st1 h1 hs
  cases fuel with
  | zero => cases h1
  | succ n =>
      have heid := CExpr.eid_withComputedMeta
        e1.setMultiplyReferenced.clearMetaData
      rw [CExpr.eid_clearMetaData, CExpr.eid_setMultiplyReferenced] at heid
      have hmult := CExpr.mult_withComputedMeta
        e1.setMultiplyReferenced.clearMetaData
      rw [CExpr.mult_clearMetaData, CExpr.mult_setMultiplyReferenced]
        at hmult
      have hmeta := CExpr.meta_withComputedMeta
        e1.setMultiplyReferenced.clearMetaData
      show ∃ st2,
        compileExpressionStep (compileE cfg n) cfg a st1 = .ok (_, st2) ∧ _
      unfold compileExpressionStep
      dsimp only
      by_cases hf : (rewriteExpression cfg a).2 = true
      · rw [if_pos hf]
        have hlookP : lookupVisited (rewriteExpression cfg a).1
            (headVisited { st1 with
              scopes := updateHeadScope
                (fun s =>
                  { s with
                    rewrittenExpressions := s.rewrittenExpressions
                      ++ [(rewriteExpression cfg a).1] })
                st1.scopes }) = some e1 := by
          rw [headVisited_updateHead_rewritten]
          exact hlook
        rw [compileRewritten_hit (compileE cfg n) cfg _ _ e1 hlookP hm]
        refine ⟨_, rfl, heid, hmult, ?_, hmeta⟩
        simp
      · rw [if_neg hf]
        rw [compileRewritten_hit (compileE cfg n) cfg _ _ e1 hlook hm]
        refine ⟨_, rfl, heid, hmult, ?_, hmeta⟩
        simp

/-! ### Concrete demonstration data -/

def bigintT : VType := .scalar .bigint

/-- A demonstration configuration: no rewrites, the usual special forms,
one deterministic vector function `plus`, folding enabled, and a fold
evaluation that would return 3. -/
def cfgDemo : Config :=
  { queryRewrites := [],
    specialFormNames := ["and", "or", "cast", "try_cast", "row_constructor"],
    vectorFnLookup := fun name _ _ =>
      if name = "plus" then some ⟨true, false⟩ else none,
    simpleFnLookup := fun _ _ => none,
    flatteningCandidates := [],
    enableConstantFolding := true,
    foldEval := fun _ => .value 3 }

/-- The IR expression `plus(BIGINT 1, BIGINT 2)`: deterministic with all
inputs constant. -/
def exprPlusDemo : TypedExpr :=
  .call bigintT "plus" [.constant bigintT 1, .constant bigintT 2]

def n0Demo : CExpr :=
  .mk 0 bigintT (.constantExpr 1) [] false (some ⟨true, []⟩) false

def n1Demo : CExpr :=
  .mk 1 bigintT (.constantExpr 2) [] false (some ⟨true, []⟩) false

/-- The compiled node `compileExpressions` produces for `exprPlusDemo`:
the unfolded `plus` call. -/
def e1Demo : CExpr :=
  .mk 2 bigintT (.vectorFunctionExpr "plus" true) [n0Demo, n1Demo] false
    (some ⟨true, []⟩) false

/-- The compilation state after compiling `exprPlusDemo` once from the
initial state. -/
def scope1Demo : ScopeR :=
  { locals := [],
    capture := [],
    captureReferences := [],
    captureFieldAccesses := [],
    visited := [(.constant bigintT 1, n0Demo), (.constant bigintT 2, n1Demo),
      (exprPlusDemo, e1Demo)],
    rewrittenExpressions := [] }

def st1Demo : CState :=
  { scopes := [scope1Demo],
    nextId := 3,
    resetIds := [],
    evalContaminated := false,
    hasExecCtx := true }

/-! ### Claim C1: constant folding is unreachable in this code -/

/-- C1 (the claim fails on the code): the driver attempts folding only
when the built node is NOT constant by metadata
(`!result->isConstant()`), while `tryFoldIfConstant` evaluates only
literal `ConstantExpr` nodes (`expr->isConstantExpr()`), and a literal
constant is always constant by metadata — so the folding step never
replaces a node.  In particular compiling the deterministic
all-constant-input call `plus(1, 2)` with folding enabled returns the
unfolded call node, not a `ConstantExpr`, although its metadata marks it
constant. -/
theorem C1_constant_folding_never_fires :
    (∀ (cfg : Config) (e : CExpr) (st : CState),
      ∃ st2, foldStep cfg e.withComputedMeta st
        = .ok (e.withComputedMeta, st2)) ∧
    (compileE cfgDemo 4 exprPlusDemo (initialState true)
        = .ok (e1Demo, st1Demo) ∧
      e1Demo.isConstantExprNode = false ∧
      e1Demo.isConstant = true ∧
      e1Demo.kind = .vectorFunctionExpr "plus" true) := by
  constructor
  · intro cfg e st
    rw [foldStep_withComputedMeta]
    exact ⟨_, rfl⟩
  · exact ⟨rfl, rfl, rfl, rfl⟩

/-! ### Claim C9: error handling of the constant folder -/

/-- C9: when the one-row evaluation of the folding attempt raises a user
error, compilation silently keeps the node; a system error propagates out
of the folder; and after every non-throwing folding attempt the driver
leaves the `ExprSet` evaluation state cleared. -/
theorem C9_fold_error_isolation :
    (∀ (cfg : Config) (e : CExpr) (st : CState) (m : String),
      e.isConstantExprNode = true → st.hasExecCtx = true →
      cfg.foldEval e = .userError m →
      tryFoldIfConstant cfg e st
        = .ok (e, { st with evalContaminated := true })) ∧
    (∀ (cfg : Config) (e : CExpr) (st : CState) (m : String),
      e.isConstantExprNode = true → st.hasExecCtx = true →
      cfg.foldEval e = .systemError m →
      tryFoldIfConstant cfg e st = .error (.veloxSystemError m)) ∧
    (∀ (cfg : Config) (e : CExpr) (st : CState) (r : CExpr) (st2 : CState),
      foldStep cfg e st = .ok (r, st2) →
      cfg.enableConstantFolding = true → e.isConstant = false →
      st2.evalContaminated = false) := by
  refine ⟨?_, ?_, ?_⟩
  · intro cfg e st m hn hctx hev
    unfold tryFoldIfConstant
    rw [hn, hctx, hev]
    rfl
  · intro cfg e st m hn hctx hev
    unfold tryFoldIfConstant
    rw [hn, hctx, hev]
    rfl
  · intro cfg e st r st2 h hen hco
    unfold foldStep at h
    rw [hen, hco] at h
    rw [if_pos (by rfl : (true && !false) = true)] at h
    cases htf : tryFoldIfConstant cfg e st with
    | error err =>
        rw [htf] at h
        cases h
    | ok pr =>
        obtain ⟨c, stm⟩ := pr
        rw [htf] at h
        cases h
        rfl

/-- A literal constant compiled node used to exercise the folder. -/
def constNodeDemo : CExpr := .mk 0 bigintT (.constantExpr 7) [] false none false

def cfgUserErrDemo : Config :=
  { cfgDemo with foldEval := fun _ => .userError "division by zero" }

/-- Witness for C9 at a concrete folding attempt raising a user error. -/
theorem C9_fold_error_isolation_witness :
    constNodeDemo.isConstantExprNode = true ∧
    (initialState true).hasExecCtx = true ∧
    cfgUserErrDemo.foldEval constNodeDemo = .userError "division by zero" ∧
    tryFoldIfConstant cfgUserErrDemo constNodeDemo (initialState true)
      = .ok (constNodeDemo,
        { initialState true with evalContaminated := true }) :=
  ⟨rfl, rfl, rfl,
    C9_fold_error_isolation.1 cfgUserErrDemo constNodeDemo
      (initialState true) "division by zero" rfl rfl rfl⟩

/-! ### Claim C7: cast compilation -/

/-- C7: compiling a Cast IR node whose target type equals the child type
returns the compiled child itself (no cast node is built, no id is
allocated); otherwise it constructs the `try_cast` special form when the
try flag is set and the `cast` special form when it is not. -/
theorem C7_cast_identity (cfg : Config) (ty : VType) (child : TypedExpr)
    (tryFlag : Bool) (c : CExpr) (st : CState) :
    (VType.beq ty c.ty = true →
      compileCast cfg (.castTE ty [child] tryFlag) [c] st = .ok (c, st)) ∧
    (VType.beq ty c.ty = false →
      cfg.specialFormNames.contains
        (if tryFlag then "try_cast" else "cast") = true →
      compileCast cfg (.castTE ty [child] tryFlag) [c] st =
        .ok (.mk st.nextId ty
          (.specialForm (if tryFlag then "try_cast" else "cast")) [c]
          false none false,
          { st with nextId := st.nextId + 1 })) := by
  constructor
  · intro hb
    unfold compileCast
    dsimp only [TypedExpr.tyOf]
    rw [if_pos hb]
  · intro hb hreg
    unfold compileCast
    dsimp only [TypedExpr.tyOf]
    rw [if_neg (by rw [hb]; exact Bool.false_ne_true)]
    cases tryFlag with
    | true =>
        dsimp only
        unfold getSpecialFormNode
        rw [if_pos (by simpa using hreg)]
        rfl
    | false =>
        dsimp only
        unfold getSpecialFormNode
        rw [if_pos (by simpa using hreg)]
        rfl

/-- Witness for C7: both the identity case and the try-cast special form
at concrete inputs. -/
theorem C7_cast_identity_witness :
    (VType.beq bigintT n0Demo.ty = true ∧
      compileCast cfgDemo (.castTE bigintT [.constant bigintT 1] false)
        [n0Demo] (initialState true) = .ok (n0Demo, initialState true)) ∧
    (VType.beq (VType.scalar .integer) n0Demo.ty = false ∧
      compileCast cfgDemo
          (.castTE (.scalar .integer) [.constant bigintT 1] true)
          [n0Demo] (initialState true) =
        .ok (.mk 0 (.scalar .integer) (.specialForm "try_cast") [n0Demo]
          false none false,
          { initialState true with nextId := 1 })) :=
  ⟨⟨rfl, (C7_cast_identity cfgDemo bigintT (.constant bigintT 1) false
      n0Demo (initialState true)).1 rfl⟩,
    ⟨rfl, (C7_cast_identity cfgDemo (.scalar .integer)
      (.constant bigintT 1) true n0Demo (initialState true)).2 rfl rfl⟩⟩

/-- Witness for C4: compiling `plus(1, 2)` twice under the demo
configuration promotes the cached node on the second compile. -/
theorem C4_cse_soundness_witness :
    compileE cfgDemo 4 exprPlusDemo (initialState true)
        = .ok (e1Demo, st1Demo) ∧
    (initialState true).scopes ≠ [] ∧
    e1Demo.multiplyReferenced = false ∧
    ∃ st2,
      compileE cfgDemo 4 exprPlusDemo st1Demo =
        .ok (e1Demo.setMultiplyReferenced.clearMetaData.withComputedMeta,
          st2) ∧
      e1Demo.setMultiplyReferenced.clearMetaData.withComputedMeta.eid
        = e1Demo.eid ∧
      e1Demo.setMultiplyReferenced.clearMetaData.withComputedMeta.multiplyReferenced
        = true ∧
      e1Demo.eid ∈ st2.resetIds ∧
      e1Demo.setMultiplyReferenced.clearMetaData.withComputedMeta.meta
        = some (e1Demo.setMultiplyReferenced.clearMetaData).computeMetaOf :=
  ⟨rfl, by simp [initialState], rfl,
    C4_cse_soundness cfgDemo 4 exprPlusDemo (initialState true) e1Demo
      st1Demo rfl (by simp [initialState]) rfl⟩

/-! ### Flattening (claim C6) -/

theorem rewriteExpression_nil (cfg : Config)
    (h : cfg.queryRewrites = []) (e : TypedExpr) :
    rewriteExpression cfg e = (e, false) := by
  unfold rewriteExpression
  rw [h]
  rfl

/-- A branch at which flattening stops (not a call to the flattened name,
or inputs not mutually type-equivalent) stays a single input. -/
theorem flattenInput_stop (name : String) (e : TypedExpr)
    (h : (isCallNamed e name && allInputTypesEquivalent e) = false) :
    flattenInput name e = [e] := by
  cases e with
  | constant ty v => rfl
  | inputRef ty => rfl
  | fieldAccess ty n is => rfl
  | dereference ty i is => rfl
  | castTE ty is f => rfl
  | concatTE ty is => rfl
  | lambdaTE ns ts b => rfl
  | call ty n is =>
      unfold flattenInput
      simp only [isCallNamed, allInputTypesEquivalent,
        TypedExpr.inputsOf] at h
      rw [h]
      rfl

/-- A nested call to the flattened name with mutually equivalent input
types is spliced into its inputs, recursively. -/
theorem flattenInput_call (name : String) (ty : VType)
    (is : List TypedExpr) (heq : allInputTypesEquivalentL is = true) :
    flattenInput name (.call ty name is) = flattenInputList name is := by
  unfold flattenInput
  simp [heq]

theorem flattenInputList_nil (name : String) :
    flattenInputList name [] = [] := rfl

theorem flattenInputList_cons (name : String) (e : TypedExpr)
    (es : List TypedExpr) :
    flattenInputList name (e :: es)
      = flattenInput name e ++ flattenInputList name es := rfl

theorem compileSeq_append
    (comp : TypedExpr → CState → Except CompileError (CExpr × CState))
    (xs ys : List TypedExpr) :
    ∀ st, compileSeq comp (xs ++ ys) st =
      match compileSeq comp xs st with
      | .error e => .error e
      | .ok (cs1, st1) =>
          match compileSeq comp ys st1 with
          | .error e => .error e
          | .ok (cs2, st2) => .ok (cs1 ++ cs2, st2) := by
  induction xs with
  | nil =>
      intro st
      simp only [List.nil_append, compileSeq]
      cases compileSeq comp ys st with
      | error e => rfl
      | ok pr =>
          obtain ⟨cs, st2⟩ := pr
          dsimp only
  | cons x xs ih =>
      intro st
      simp only [List.cons_append, compileSeq]
      cases comp x st with
      | error e => rfl
      | ok pr =>
          obtain ⟨c, st1⟩ := pr
          dsimp only
          rw [List.append_eq, ih st1]
          cases compileSeq comp xs st1 with
          | error e => rfl
          | ok pr2 =>
              obtain ⟨cs2, stm⟩ := pr2
              dsimp only
              cases compileSeq comp ys stm with
              | error e => rfl
              | ok pr3 =>
                  obtain ⟨cs3, stf⟩ := pr3
                  dsimp only
                  rw [List.cons_append]

/-- Under a flattening parent, the input loop compiles exactly the
concatenation of the flattened inputs, in order. -/
theorem inputsLoop_flatten_eq_seq
    (comp : TypedExpr → CState → Except CompileError (CExpr × CState))
    (pfa : Bool) (name : String) :
    ∀ (es : List TypedExpr) (st : CState),
      (∀ e ∈ es, e.isInputKind = false) →
      inputsLoop comp pfa (some name) es st
        = compileSeq comp (flattenInputList name es) st := by
  intro es
  induction es with
  | nil =>
      intro st hni
      rfl
  | cons e rest ih =>
      intro st hni
      have hne : e.isInputKind = false := hni e (List.mem_cons_self e rest)
      have hrest : ∀ x ∈ rest, x.isInputKind = false :=
        fun x hx => hni x (List.mem_cons_of_mem e hx)
      unfold inputsLoop
      rw [hne]
      simp only [Bool.false_eq_true, if_false]
      rw [flattenInputList_cons, compileSeq_append]
      cases h1 : compileSeq comp (flattenInput name e) st with
      | error err => rfl
      | ok pr =>
          obtain ⟨cs1, st1⟩ := pr
          dsimp only
          rw [ih st1 hrest]

/-- C6: for a call to AND whose inputs are `a` and a nested AND of `b`
and `c` — each of `a`, `b`, `c` a branch at which flattening stops, the
nested inputs mutually type-equivalent — input compilation splices the
nested call in, recursively and preserving left-to-right order: the
compiled inputs are exactly the sequential compilation of `[a, b, c]`,
and the whole expression compiles to a single AND special form over
those inputs.  An OR call under an AND remains a single input; a
registry-declared flattenable function flattens exactly when its inputs
are mutually type-equivalent, and a nested call of differing input types
stops that branch. -/
theorem C6_flattening
    (cfg : Config) (fuel : Nat) (ty tyI : VType) (a b c : TypedExpr)
    (st : CState) (cas : List CExpr) (st2 : CState)
    (hrw : cfg.queryRewrites = [])
    (hsf : cfg.specialFormNames.contains "and" = true)
    (ha : (isCallNamed a "and" && allInputTypesEquivalent a) = false)
    (hb : (isCallNamed b "and" && allInputTypesEquivalent b) = false)
    (hc : (isCallNamed c "and" && allInputTypesEquivalent c) = false)
    (hina : a.isInputKind = false)
    (hbc : allInputTypesEquivalentL [b, c] = true)
    (hmiss : lookupVisited (.call ty "and" [a, .call tyI "and" [b, c]])
      (headVisited st) = none)
    (hseq : compileSeq (compileE cfg fuel) [a, b, c] st = .ok (cas, st2)) :
    compileInputsH (compileE cfg fuel) cfg
        (.call ty "and" [a, .call tyI "and" [b, c]]) st = .ok (cas, st2)
    ∧ (∃ st4, compileE cfg (fuel + 1)
        (.call ty "and" [a, .call tyI "and" [b, c]]) st
        = .ok ((CExpr.mk st2.nextId ty (.specialForm "and") cas
            false none false).withComputedMeta, st4))
    ∧ (∀ (tyo : VType) (es : List TypedExpr),
        flattenInput "and" (.call tyo "or" es) = [.call tyo "or" es])
    ∧ (∀ (f : String) (tys : VType) (es2 : List TypedExpr),
        cfg.flatteningCandidates.contains f = true →
        (allInputTypesEquivalentL es2 = true →
          shouldFlatten cfg (.call tys f es2) = some f)
        ∧ (allInputTypesEquivalentL es2 = false →
          flattenInput f (.call tys f es2) = [.call tys f es2])) := by
  have hni : ∀ e ∈ [a, TypedExpr.call tyI "and" [b, c]],
      e.isInputKind = false := by
    intro e he
    rcases List.mem_cons.mp he with rfl | he2
    · exact hina
    · rcases List.mem_cons.mp he2 with rfl | he3
      · rfl
      · exact absurd he3 (List.not_mem_nil e)
  have hfl : flattenInputList "and" [a, .call tyI "and" [b, c]]
      = [a, b, c] := by
    rw [flattenInputList_cons, flattenInput_stop "and" a ha,
      flattenInputList_cons,
      flattenInput_call "and" tyI [b, c] hbc,
      flattenInputList_cons, flattenInput_stop "and" b hb,
      flattenInputList_cons, flattenInput_stop "and" c hc,
      flattenInputList_nil]
    rfl
  have h1 : shouldFlatten cfg (.call ty "and" [a, .call tyI "and" [b, c]])
      = some "and" := by
    unfold shouldFlatten
    dsimp only
    rw [if_pos (Or.inl rfl)]
  have hinputs : compileInputsH (compileE cfg fuel) cfg
      (.call ty "and" [a, .call tyI "and" [b, c]]) st = .ok (cas, st2) := by
    unfold compileInputsH
    rw [h1]
    dsimp only [TypedExpr.isFieldAccessKind, TypedExpr.inputsOf]
    rw [inputsLoop_flatten_eq_seq (compileE cfg fuel) false "and"
      [a, .call tyI "and" [b, c]] st hni, hfl]
    exact hseq
  refine ⟨hinputs, ?_, ?_, ?_⟩
  · exact ⟨_, by
      show compileExpressionStep (compileE cfg fuel) cfg
        (.call ty "and" [a, .call tyI "and" [b, c]]) st = _
      unfold compileExpressionStep
      rw [rewriteExpression_nil cfg hrw]
      dsimp only
      simp only [Bool.false_eq_true, if_false]
      unfold compileRewritten
      rw [hmiss]
      dsimp only
      rw [hinputs]
      dsimp only
      have hb2 : buildNode (compileE cfg fuel) cfg
          (.call ty "and" [a, .call tyI "and" [b, c]]) cas st2
          = .ok (.mk st2.nextId ty (.specialForm "and") cas false none false,
              { st2 with nextId := st2.nextId + 1 }) := by
        show compileCall cfg (.call ty "and" [a, .call tyI "and" [b, c]])
          cas st2 = _
        unfold compileCall
        dsimp only
        rw [if_pos hsf]
        dsimp only [freshId]
      rw [hb2]
      dsimp only
      rw [foldStep_withComputedMeta]⟩
  · intro tyo es
    apply flattenInput_stop
    simp [isCallNamed]
  · intro f tys es2 hcand
    constructor
    · intro hequiv
      unfold shouldFlatten
      dsimp only
      rw [if_pos (Or.inr (Or.inr ⟨hcand, hequiv⟩))]
    · intro hne
      unfold flattenInput
      simp [hne]

/-! ### Lambda captures (claim C5) -/

/- The top-level input columns referenced by an IR expression: the names
of the field accesses that `compileExpression` materializes as
`FieldReference`s over the input row (empty inputs, or an
`InputTypedExpr` input), looking through all sub-expressions and nested
lambda bodies. -/
mutual
def inputColumnRefs : TypedExpr → List String
  | .constant _ _ => []
  | .inputRef _ => []
  | .fieldAccess _ name inputs =>
      (match inputs with
       | [] => [name]
       | i :: _ => if i.isInputKind then [name] else [])
        ++ inputColumnRefsList inputs
  | .dereference _ _ inputs => inputColumnRefsList inputs
  | .call _ _ inputs => inputColumnRefsList inputs
  | .castTE _ inputs _ => inputColumnRefsList inputs
  | .concatTE _ inputs => inputColumnRefsList inputs
  | .lambdaTE _ _ body => inputColumnRefs body
def inputColumnRefsList : List TypedExpr → List String
  | [] => []
  | e :: es => inputColumnRefs e ++ inputColumnRefsList es
end

theorem refsList_append (xs ys : List TypedExpr) :
    inputColumnRefsList (xs ++ ys)
      = inputColumnRefsList xs ++ inputColumnRefsList ys := by
  induction xs with
  | nil => simp [inputColumnRefsList]
  | cons e es ih => simp [inputColumnRefsList, ih]

/- Flattening does not invent new column references. -/
mutual
theorem flattenRefs_sub (name : String) :
    ∀ (e : TypedExpr) (n : String),
      n ∈ inputColumnRefsList (flattenInput name e) → n ∈ inputColumnRefs e
  | .constant ty v, n, hn => by
      simpa [flattenInput, inputColumnRefsList] using hn
  | .inputRef ty, n, hn => by
      simpa [flattenInput, inputColumnRefsList] using hn
  | .fieldAccess ty nm inputs, n, hn => by
      simpa [flattenInput, inputColumnRefsList] using hn
  | .dereference ty i inputs, n, hn => by
      simpa [flattenInput, inputColumnRefsList] using hn
  | .castTE ty inputs f, n, hn => by
      simpa [flattenInput, inputColumnRefsList] using hn
  | .concatTE ty inputs, n, hn => by
      simpa [flattenInput, inputColumnRefsList] using hn
  | .lambdaTE ns ts b, n, hn => by
      simpa [flattenInput, inputColumnRefsList] using hn
  | .call ty nm inputs, n, hn => by
      by_cases hc : (nm == name && allInputTypesEquivalentL inputs) = true
      · rw [show flattenInput name (.call ty nm inputs)
            = flattenInputList name inputs from by
            unfold flattenInput
            exact if_pos hc] at hn
        exact flattenRefsList_sub name inputs n hn
      · rw [show flattenInput name (.call ty nm inputs)
            = [.call ty nm inputs] from by
            unfold flattenInput
            exact if_neg hc] at hn
        simpa [inputColumnRefsList] using hn
theorem flattenRefsList_sub (name : String) :
    ∀ (es : List TypedExpr) (n : String),
      n ∈ inputColumnRefsList (flattenInputList name es) →
        n ∈ inputColumnRefsList es
  | [], n, hn => by simpa [flattenInputList, inputColumnRefsList] using hn
  | e :: es, n, hn => by
      rw [flattenInputList_cons] at hn
      have : n ∈ inputColumnRefsList (flattenInput name e)
          ∨ n ∈ inputColumnRefsList (flattenInputList name es) := by
        have hsplit := hn
        rw [show inputColumnRefsList
            (flattenInput name e ++ flattenInputList name es)
            = inputColumnRefsList (flattenInput name e)
              ++ inputColumnRefsList (flattenInputList name es) from
          refsList_append (flattenInput name e) (flattenInputList name es)]
          at hsplit
        exact List.mem_append.mp hsplit
      rcases this with h | h
      · exact List.mem_append_left _ (flattenRefs_sub name e n h)
      · exact List.mem_append_right _ (flattenRefsList_sub name es n h)
end

/-- How one scope of the stack may evolve while an expression with
column references `refs` is compiled: the locals never change, and the
capture lists only grow, in lockstep, by names that are referenced by
the expression and are not among the locals of this scope. -/
def ScopeGrew (refs : List String) (s s1 : ScopeR) : Prop :=
  s1.locals = s.locals ∧
  ∃ new newR,
    s1.capture = s.capture ++ new ∧
    s1.captureReferences = s.captureReferences ++ newR ∧
    newR.length = new.length ∧
    ∀ n ∈ new, n ∈ refs ∧ n ∉ s.locals

theorem ScopeGrew_rfl (refs : List String) (s : ScopeR) :
    ScopeGrew refs s s :=
  ⟨rfl, [], [], by simp, by simp, rfl, by simp⟩

theorem ScopeGrew_trans (refs : List String) {s s1 s2 : ScopeR}
    (h1 : ScopeGrew refs s s1) (h2 : ScopeGrew refs s1 s2) :
    ScopeGrew refs s s2 := by
  obtain ⟨hl1, new1, newR1, hc1, hr1, hlen1, hm1⟩ := h1
  obtain ⟨hl2, new2, newR2, hc2, hr2, hlen2, hm2⟩ := h2
  refine ⟨hl2.trans hl1, new1 ++ new2, newR1 ++ newR2, ?_, ?_, ?_, ?_⟩
  · rw [hc2, hc1, List.append_assoc]
  · rw [hr2, hr1, List.append_assoc]
  · simp [hlen1, hlen2]
  · intro n hn
    rcases List.mem_append.mp hn with h | h
    · exact hm1 n h
    · have hx := hm2 n h
      rw [hl1] at hx
      exact hx

theorem ScopeGrew_mono {refs refs2 : List String}
    (hsub : ∀ n ∈ refs, n ∈ refs2) {s s1 : ScopeR}
    (h : ScopeGrew refs s s1) : ScopeGrew refs2 s s1 := by
  obtain ⟨hl, new, newR, hc, hr, hlen, hm⟩ := h
  exact ⟨hl, new, newR, hc, hr, hlen,
    fun n hn => ⟨hsub n (hm n hn).1, (hm n hn).2⟩⟩

theorem ScopeGrew_congr {refs : List String} {s s1 s2 : ScopeR}
    (h : ScopeGrew refs s s1) (hl : s2.locals = s1.locals)
    (hc : s2.capture = s1.capture)
    (hr : s2.captureReferences = s1.captureReferences) :
    ScopeGrew refs s s2 := by
  obtain ⟨hl1, new, newR, hc1, hr1, hlen, hm⟩ := h
  exact ⟨hl.trans hl1, new, newR, hc.trans hc1, hr.trans hr1, hlen, hm⟩

theorem scopesGrew_rfl (refs : List String) :
    ∀ sc, List.Forall₂ (ScopeGrew refs) sc sc
  | [] => .nil
  | s :: rest => .cons (ScopeGrew_rfl refs s) (scopesGrew_rfl refs rest)

theorem scopesGrew_of_eq (refs : List String) {sc sc1 : List ScopeR}
    (h : sc1 = sc) : List.Forall₂ (ScopeGrew refs) sc sc1 := by
  subst h
  exact scopesGrew_rfl refs sc1

theorem scopesGrew_trans (refs : List String) {sc sc1 sc2 : List ScopeR}
    (h1 : List.Forall₂ (ScopeGrew refs) sc sc1)
    (h2 : List.Forall₂ (ScopeGrew refs) sc1 sc2) :
    List.Forall₂ (ScopeGrew refs) sc sc2 := by
  induction h1 generalizing sc2 with
  | nil =>
      cases h2
      exact .nil
  | cons hs htail ih =>
      cases h2 with
      | cons hs2 htail2 => exact .cons (ScopeGrew_trans refs hs hs2) (ih htail2)

theorem scopesGrew_mono {refs refs2 : List String}
    (hsub : ∀ n ∈ refs, n ∈ refs2) {sc sc1 : List ScopeR}
    (h : List.Forall₂ (ScopeGrew refs) sc sc1) :
    List.Forall₂ (ScopeGrew refs2) sc sc1 := by
  induction h with
  | nil => exact .nil
  | cons hs htail ih => exact .cons (ScopeGrew_mono hsub hs) ih

theorem scopesGrew_updateHead (refs : List String) (f : ScopeR → ScopeR)
    (hf : ∀ s, (f s).locals = s.locals ∧ (f s).capture = s.capture
      ∧ (f s).captureReferences = s.captureReferences)
    {sc sc1 : List ScopeR}
    (h : List.Forall₂ (ScopeGrew refs) sc sc1) :
    List.Forall₂ (ScopeGrew refs) sc (updateHeadScope f sc1) := by
  cases h with
  | nil => exact .nil
  | cons hs htail =>
      exact .cons (ScopeGrew_congr hs (hf _).1 (hf _).2.1 (hf _).2.2) htail

/-- `captureFieldReference` only grows the capture lists of scopes whose
locals do not contain the referenced field, by that field alone. -/
theorem captureFieldReference_grew (r : CExpr) (fa : TypedExpr)
    (f : String) : ∀ sc,
    List.Forall₂ (ScopeGrew [f]) sc (captureFieldReference r fa f sc)
  | [] => .nil
  | [top] => .cons (ScopeGrew_rfl _ top) .nil
  | s :: s2 :: rest => by
      simp only [captureFieldReference]
      by_cases hstop : (s.locals.contains f || s.capture.contains f) = true
      · rw [if_pos hstop]
        exact scopesGrew_rfl _ _
      · rw [if_neg hstop]
        refine List.Forall₂.cons ?_
          (captureFieldReference_grew r fa f (s2 :: rest))
        have hnl : f ∉ s.locals := fun hmem =>
          hstop (by
            rw [Bool.or_eq_true]
            exact Or.inl (List.elem_eq_true_of_mem hmem))
        exact ⟨rfl, [f], [r], rfl, rfl, rfl, fun n hn => by
          rw [List.mem_singleton.mp hn]
          exact ⟨List.mem_singleton.mpr rfl, hnl⟩⟩

/-- The walk of `captureFieldReference`: the scope stack splits into the
walked prefix — every scope strictly before the first scope that defines
or already captures the field, the parentless top-level scope never
entered — to each of which the capture is appended exactly once, and an
untouched suffix whose head (when the walk stopped early) defines or
already captures the field. -/
theorem captureFieldReference_split (ref : CExpr) (fa : TypedExpr)
    (f : String) : ∀ sc : List ScopeR, ∃ p q, sc = p ++ q
      ∧ captureFieldReference ref fa f sc
          = p.map (fun s => s.addCapture ref fa f) ++ q
      ∧ (∀ s ∈ p, f ∉ s.locals ∧ f ∉ s.capture
          ∧ (s.addCapture ref fa f).capture = s.capture ++ [f]
          ∧ (s.addCapture ref fa f).capture.count f = 1
          ∧ (s.addCapture ref fa f).captureReferences
              = s.captureReferences ++ [ref])
      ∧ (q = [] → p = [])
      ∧ (∀ s sr, q = s :: sr → sr ≠ [] → f ∈ s.locals ∨ f ∈ s.capture)
  | [] =>
      ⟨[], [], rfl, rfl, by simp, fun _ => rfl, by simp⟩
  | [top] =>
      ⟨[], [top], rfl, rfl, by simp, by simp,
        fun s sr hq hsr => by
          rw [List.cons.injEq] at hq
          exact absurd hq.2.symm hsr⟩
  | s :: s2 :: rest => by
      by_cases hstop : (s.locals.contains f || s.capture.contains f) = true
      · refine ⟨[], s :: s2 :: rest, rfl, ?_, by simp, by simp, ?_⟩
        · simp only [captureFieldReference]
          rw [if_pos hstop]
          rfl
        · intro sx sr hq hsr
          rw [List.cons.injEq] at hq
          rw [← hq.1]
          rw [Bool.or_eq_true] at hstop
          rcases hstop with h | h
          · exact Or.inl (List.mem_of_elem_eq_true h)
          · exact Or.inr (List.mem_of_elem_eq_true h)
      · obtain ⟨p, q, hpq, hres, hmem, hq0, hqstop⟩ :=
          captureFieldReference_split ref fa f (s2 :: rest)
        have hnl : f ∉ s.locals := fun hmem2 =>
          hstop (by
            rw [Bool.or_eq_true]
            exact Or.inl (List.elem_eq_true_of_mem hmem2))
        have hnc : f ∉ s.capture := fun hmem2 =>
          hstop (by
            rw [Bool.or_eq_true]
            exact Or.inr (List.elem_eq_true_of_mem hmem2))
        refine ⟨s :: p, q, by rw [List.cons_append, ← hpq], ?_, ?_, ?_, hqstop⟩
        · simp only [captureFieldReference]
          rw [if_neg hstop, hres]
          rfl
        · intro sx hsx
          rcases List.mem_cons.mp hsx with rfl | hx
          · refine ⟨hnl, hnc, rfl, ?_, rfl⟩
            rw [show (sx.addCapture ref fa f).capture
                = sx.capture ++ [f] from rfl]
            rw [List.count_append]
            rw [List.count_eq_zero.mpr hnc]
            simp
          · exact hmem sx hx
        · intro hq2
          exfalso
          rw [hq2, List.append_nil] at hpq
          rw [hq0 hq2] at hpq
          exact List.cons_ne_nil s2 rest hpq

theorem refsList_cons (e : TypedExpr) (es : List TypedExpr) :
    inputColumnRefsList (e :: es)
      = inputColumnRefs e ++ inputColumnRefsList es := rfl

/-- The direct inputs of an expression reference no columns beyond those
of the expression itself. -/
theorem refsList_inputsOf_sub (e : TypedExpr) (n : String)
    (hn : n ∈ inputColumnRefsList e.inputsOf) : n ∈ inputColumnRefs e := by
  cases e with
  | constant ty v => simpa [TypedExpr.inputsOf, inputColumnRefsList] using hn
  | inputRef ty => simpa [TypedExpr.inputsOf, inputColumnRefsList] using hn
  | fieldAccess ty name inputs =>
      simp only [TypedExpr.inputsOf] at hn
      exact List.mem_append_right _ hn
  | dereference ty i inputs => exact hn
  | call ty nm inputs => exact hn
  | castTE ty inputs f => exact hn
  | concatTE ty inputs => exact hn
  | lambdaTE ns ts body =>
      simpa [TypedExpr.inputsOf, inputColumnRefsList] using hn

/-- A compilation function whose only effect on the capture lists of the
scope stack is capture discovery for the columns the compiled expression
references. -/
def GrowsCaptures
    (comp : TypedExpr → CState → Except CompileError (CExpr × CState)) :
    Prop :=
  ∀ e st r st1, comp e st = .ok (r, st1) →
    List.Forall₂ (ScopeGrew (inputColumnRefs e)) st.scopes st1.scopes

theorem compileSeq_grew
    (comp : TypedExpr → CState → Except CompileError (CExpr × CState))
    (hc : GrowsCaptures comp) :
    ∀ es st cs st2, compileSeq comp es st = .ok (cs, st2) →
      List.Forall₂ (ScopeGrew (inputColumnRefsList es))
        st.scopes st2.scopes := by
  intro es
  induction es with
  | nil =>
      intro st cs st2 h
      cases h
      exact scopesGrew_rfl _ _
  | cons e rest ih =>
      intro st cs st2 h
      unfold compileSeq at h
      cases h1 : comp e st with
      | error err =>
          rw [h1] at h
          cases h
      | ok pr =>
          obtain ⟨c, stm⟩ := pr
          rw [h1] at h
          dsimp only at h
          cases h2 : compileSeq comp rest stm with
          | error err =>
              rw [h2] at h
              cases h
          | ok pr2 =>
              obtain ⟨cs2, stf⟩ := pr2
              rw [h2] at h
              cases h
              have hA : List.Forall₂
                  (ScopeGrew (inputColumnRefsList (e :: rest)))
                  st.scopes stm.scopes :=
                scopesGrew_mono (fun n hn => by
                  rw [refsList_cons]
                  exact List.mem_append_left _ hn) (hc e st c stm h1)
              have hB : List.Forall₂
                  (ScopeGrew (inputColumnRefsList (e :: rest)))
                  stm.scopes st2.scopes :=
                scopesGrew_mono (fun n hn => by
                  rw [refsList_cons]
                  exact List.mem_append_right _ hn) (ih stm cs2 st2 h2)
              exact scopesGrew_trans _ hA hB

theorem inputsLoop_grew
    (comp : TypedExpr → CState → Except CompileError (CExpr × CState))
    (hc : GrowsCaptures comp) (pfa : Bool) (fl : Option String) :
    ∀ es st cs st2, inputsLoop comp pfa fl es st = .ok (cs, st2) →
      List.Forall₂ (ScopeGrew (inputColumnRefsList es))
        st.scopes st2.scopes := by
  intro es
  induction es with
  | nil =>
      intro st cs st2 h
      cases h
      exact scopesGrew_rfl _ _
  | cons input rest ih =>
      intro st cs st2 h
      unfold inputsLoop at h
      by_cases hik : input.isInputKind = true
      · rw [if_pos hik] at h
        by_cases hp : pfa = true
        · rw [if_pos hp] at h
          exact scopesGrew_mono (fun n hn => by
            rw [refsList_cons]
            exact List.mem_append_right _ hn) (ih st cs st2 h)
        · rw [if_neg hp] at h
          cases h
      · rw [if_neg hik] at h
        cases fl with
        | some name =>
            dsimp only at h
            cases h1 : compileSeq comp (flattenInput name input) st with
            | error err =>
                rw [h1] at h
                cases h
            | ok pr =>
                obtain ⟨cs1, stm⟩ := pr
                rw [h1] at h
                dsimp only at h
                cases h2 : inputsLoop comp pfa (some name) rest stm with
                | error err =>
                    rw [h2] at h
                    cases h
                | ok pr2 =>
                    obtain ⟨cs2, stf⟩ := pr2
                    rw [h2] at h
                    cases h
                    have hA : List.Forall₂
                        (ScopeGrew (inputColumnRefsList (input :: rest)))
                        st.scopes stm.scopes :=
                      scopesGrew_mono (fun n hn => by
                        rw [refsList_cons]
                        exact List.mem_append_left _
                          (flattenRefs_sub name input n hn))
                        (compileSeq_grew comp hc _ st cs1 stm h1)
                    have hB : List.Forall₂
                        (ScopeGrew (inputColumnRefsList (input :: rest)))
                        stm.scopes st2.scopes :=
                      scopesGrew_mono (fun n hn => by
                        rw [refsList_cons]
                        exact List.mem_append_right _ hn)
                        (ih stm cs2 st2 h2)
                    exact scopesGrew_trans _ hA hB
        | none =>
            dsimp only at h
            cases h1 : comp input st with
            | error err =>
                rw [h1] at h
                cases h
            | ok pr =>
                obtain ⟨c, stm⟩ := pr
                rw [h1] at h
                dsimp only at h
                cases h2 : inputsLoop comp pfa none rest stm with
                | error err =>
                    rw [h2] at h
                    cases h
                | ok pr2 =>
                    obtain ⟨cs2, stf⟩ := pr2
                    rw [h2] at h
                    cases h
                    have hA : List.Forall₂
                        (ScopeGrew (inputColumnRefsList (input :: rest)))
                        st.scopes stm.scopes :=
                      scopesGrew_mono (fun n hn => by
                        rw [refsList_cons]
                        exact List.mem_append_left _ hn)
                        (hc input st c stm h1)
                    have hB : List.Forall₂
                        (ScopeGrew (inputColumnRefsList (input :: rest)))
                        stm.scopes st2.scopes :=
                      scopesGrew_mono (fun n hn => by
                        rw [refsList_cons]
                        exact List.mem_append_right _ hn)
                        (ih stm cs2 st2 h2)
                    exact scopesGrew_trans _ hA hB

theorem compileLambdaH_grew
    (comp : TypedExpr → CState → Except CompileError (CExpr × CState))
    (hc : GrowsCaptures comp) (ns : List String) (ts : List VType)
    (body : TypedExpr) (st : CState) (r : CExpr) (st1 : CState)
    (h : compileLambdaH comp ns ts body st = .ok (r, st1)) :
    List.Forall₂ (ScopeGrew (inputColumnRefs body))
      st.scopes st1.scopes := by
  unfold compileLambdaH at h
  dsimp only at h
  cases h1 : comp body { st with scopes := emptyScope ns :: st.scopes } with
  | error err =>
      rw [h1] at h
      cases h
  | ok pr =>
      obtain ⟨cbody, st2⟩ := pr
      rw [h1] at h
      dsimp only at h
      have hgrow := hc body _ cbody st2 h1
      dsimp only at hgrow
      cases hsc : st2.scopes with
      | nil =>
          rw [hsc] at h
          cases h
      | cons lam restSc =>
          cases restSc with
          | nil =>
              rw [hsc] at h
              cases h
          | cons parent outer =>
              rw [hsc] at h
              dsimp only at h
              cases hmat : materializeCaptures
                  (lam.captureReferences.zip lam.captureFieldAccesses)
                  parent.visited st2.nextId with
              | mk refs rest2 =>
                  obtain ⟨pv, nid⟩ := rest2
                  rw [hmat] at h
                  cases h
                  rw [hsc] at hgrow
                  cases hgrow with
                  | cons hhead htail =>
                      cases hscst : st.scopes with
                      | nil =>
                          rw [hscst] at htail
                          cases htail
                      | cons s0 srest =>
                          rw [hscst] at htail
                          dsimp only
                          cases htail with
                          | cons hp ht =>
                              exact .cons (ScopeGrew_congr hp rfl rfl rfl) ht

theorem buildNode_grew
    (comp : TypedExpr → CState → Except CompileError (CExpr × CState))
    (hc : GrowsCaptures comp) (cfg : Config) (expr : TypedExpr)
    (cins : List CExpr) (st : CState) (r : CExpr) (st1 : CState)
    (h : buildNode comp cfg expr cins st = .ok (r, st1)) :
    List.Forall₂ (ScopeGrew (inputColumnRefs expr))
      st.scopes st1.scopes := by
  unfold buildNode at h
  cases expr with
  | concatTE ty is =>
      exact scopesGrew_of_eq _ (getSpecialFormNode_scopes cfg _ _ _ st r st1 h)
  | castTE ty is f =>
      exact scopesGrew_of_eq _ (compileCast_scopes cfg _ _ st r st1 h)
  | call ty name is =>
      exact scopesGrew_of_eq _ (compileCall_scopes cfg _ _ st r st1 h)
  | fieldAccess ty name is =>
      simp only [freshId] at h
      cases is with
      | nil =>
          dsimp only at h
          cases h
          refine scopesGrew_mono (fun n hn => ?_)
            (captureFieldReference_grew _ _ name st.scopes)
          rw [List.mem_singleton.mp hn]
          exact List.mem_append_left _ (List.mem_singleton.mpr rfl)
      | cons i irest =>
          dsimp only at h
          by_cases hik : i.isInputKind = true
          · rw [if_pos hik] at h
            cases h
            refine scopesGrew_mono (fun n hn => ?_)
              (captureFieldReference_grew _ _ name st.scopes)
            rw [List.mem_singleton.mp hn]
            refine List.mem_append_left _ ?_
            rw [show (match (i :: irest : List TypedExpr) with
                | [] => [name]
                | i :: _ => if i.isInputKind then [name] else [])
                = if i.isInputKind then [name] else [] from rfl]
            rw [if_pos hik]
            exact List.mem_singleton.mpr rfl
          · rw [if_neg hik] at h
            cases h
            exact scopesGrew_rfl _ _
  | dereference ty idx is =>
      simp only [freshId] at h
      cases h
      exact scopesGrew_rfl _ _
  | inputRef ty => cases h
  | constant ty v =>
      simp only [freshId] at h
      cases h
      exact scopesGrew_rfl _ _
  | lambdaTE ns ts body =>
      exact compileLambdaH_grew comp hc ns ts body st r st1 h

theorem compileInputsH_grew
    (comp : TypedExpr → CState → Except CompileError (CExpr × CState))
    (hc : GrowsCaptures comp) (cfg : Config) (expr : TypedExpr)
    (st : CState) (cs : List CExpr) (st2 : CState)
    (h : compileInputsH comp cfg expr st = .ok (cs, st2)) :
    List.Forall₂ (ScopeGrew (inputColumnRefs expr))
      st.scopes st2.scopes := by
  exact scopesGrew_mono (refsList_inputsOf_sub expr)
    (inputsLoop_grew comp hc _ _ _ st cs st2 h)

theorem compileRewritten_grew
    (comp : TypedExpr → CState → Except CompileError (CExpr × CState))
    (hc : GrowsCaptures comp) (cfg : Config) (expr : TypedExpr)
    (st : CState) (r : CExpr) (st1 : CState)
    (h : compileRewritten comp cfg expr st = .ok (r, st1)) :
    List.Forall₂ (ScopeGrew (inputColumnRefs expr))
      st.scopes st1.scopes := by
  unfold compileRewritten at h
  cases hv : lookupVisited expr (headVisited st) with
  | some alreadyCompiled =>
      rw [hv] at h
      dsimp only at h
      cases hmv : alreadyCompiled.multiplyReferenced
      · have hcond : (!alreadyCompiled.multiplyReferenced) = true := by
          rw [hmv]
          rfl
        rw [if_pos hcond] at h
        cases h
        dsimp only
        exact scopesGrew_updateHead _
          (fun s =>
            { s with
              visited :=
                insertVisited expr
                  alreadyCompiled.setMultiplyReferenced.clearMetaData.withComputedMeta
                  s.visited })
          (fun s => ⟨rfl, rfl, rfl⟩) (scopesGrew_rfl _ _)
      · have hcond : ¬((!alreadyCompiled.multiplyReferenced) = true) := by
          rw [hmv]
          simp
        rw [if_neg hcond] at h
        cases h
        exact scopesGrew_rfl _ _
  | none =>
      rw [hv] at h
      dsimp only at h
      cases hi : compileInputsH comp cfg expr st with
      | error err =>
          rw [hi] at h
          cases h
      | ok pr =>
          obtain ⟨cins, stA⟩ := pr
          rw [hi] at h
          dsimp only at h
          cases hb : buildNode comp cfg expr cins stA with
          | error err =>
              rw [hb] at h
              cases h
          | ok pr2 =>
              obtain ⟨result0, stB⟩ := pr2
              rw [hb] at h
              dsimp only at h
              cases hf : foldStep cfg result0.withComputedMeta stB with
              | error err =>
                  rw [hf] at h
                  cases h
              | ok pr3 =>
                  obtain ⟨compiled, stC⟩ := pr3
                  rw [hf] at h
                  cases h
                  dsimp only
                  have hA := compileInputsH_grew comp hc cfg expr st cins stA hi
                  have hB := buildNode_grew comp hc cfg expr cins stA
                    result0 stB hb
                  have hC := scopesGrew_of_eq (inputColumnRefs expr)
                    (foldStep_scopes cfg result0.withComputedMeta stB _ _ hf)
                  exact scopesGrew_updateHead _
                    (fun s =>
                      { s with
                        visited := insertVisited expr r s.visited })
                    (fun s => ⟨rfl, rfl, rfl⟩)
                    (scopesGrew_trans _ hA (scopesGrew_trans _ hB hC))

theorem compileExpressionStep_grew
    (comp : TypedExpr → CState → Except CompileError (CExpr × CState))
    (hc : GrowsCaptures comp) (cfg : Config)
    (hrw : cfg.queryRewrites = []) (expr : TypedExpr)
    (st : CState) (r : CExpr) (st1 : CState)
    (h : compileExpressionStep comp cfg expr st = .ok (r, st1)) :
    List.Forall₂ (ScopeGrew (inputColumnRefs expr))
      st.scopes st1.scopes := by
  unfold compileExpressionStep at h
  rw [rewriteExpression_nil cfg hrw] at h
  dsimp only at h
  simp only [Bool.false_eq_true, if_false] at h
  exact compileRewritten_grew comp hc cfg expr st r st1 h

/-- The recursive compiler only grows the capture lists by referenced
columns (when no query rewrites are installed). -/
theorem compileE_grew (cfg : Config) (hrw : cfg.queryRewrites = []) :
    ∀ fuel : Nat, GrowsCaptures (compileE cfg fuel) := by
  intro fuel
  induction fuel with
  | zero =>
      intro e s r ss h
      cases h
  | succ n ih =>
      intro e s r ss h
      exact compileExpressionStep_grew (compileE cfg n) ih cfg hrw e s r ss h

/-- C5: capture minimality and capture discovery.  (a) A lambda whose
body references only its formal parameters compiles to a `LambdaExpr`
with an empty capture list.  (b) A field reference walks the scope stack
outward; the stack splits into the walked prefix — every scope strictly
before the first scope that defines or already captures the name (the
walk never entering the parentless top-level scope) — each of which gets
the name appended exactly once, in lockstep with its capture reference,
and an untouched suffix stopping the walk. -/
theorem C5_lambda_captures
    (cfg : Config) (fuel : Nat) (ns : List String) (ts : List VType)
    (body : TypedExpr) (st : CState) (r : CExpr) (st1 : CState)
    (hrw : cfg.queryRewrites = [])
    (hsub : ∀ n ∈ inputColumnRefs body, n ∈ ns)
    (h : compileLambdaH (compileE cfg fuel) ns ts body st
      = .ok (r, st1)) :
    (r.kind = .lambdaExpr ns 0 ∧ r.lambdaCaptures = [])
    ∧ (∀ (ref : CExpr) (fa : TypedExpr) (f : String) (sc : List ScopeR),
        ∃ p q, sc = p ++ q
          ∧ captureFieldReference ref fa f sc
              = p.map (fun s => s.addCapture ref fa f) ++ q
          ∧ (∀ s ∈ p, f ∉ s.locals ∧ f ∉ s.capture
              ∧ (s.addCapture ref fa f).capture = s.capture ++ [f]
              ∧ (s.addCapture ref fa f).capture.count f = 1
              ∧ (s.addCapture ref fa f).captureReferences
                  = s.captureReferences ++ [ref])
          ∧ (q = [] → p = [])
          ∧ (∀ s sr, q = s :: sr → sr ≠ [] →
              f ∈ s.locals ∨ f ∈ s.capture)) := by
  constructor
  · unfold compileLambdaH at h
    dsimp only at h
    cases h1 : compileE cfg fuel body
        { st with scopes := emptyScope ns :: st.scopes } with
    | error err =>
        rw [h1] at h
        cases h
    | ok pr =>
        obtain ⟨cbody, st2⟩ := pr
        rw [h1] at h
        dsimp only at h
        have hgrow := compileE_grew cfg hrw fuel body _ cbody st2 h1
        dsimp only at hgrow
        cases hsc : st2.scopes with
        | nil =>
            rw [hsc] at h
            cases h
        | cons lam restSc =>
            cases restSc with
            | nil =>
                rw [hsc] at h
                cases h
            | cons parent outer =>
                rw [hsc] at h
                dsimp only at h
                rw [hsc] at hgrow
                cases hgrow with
                | cons hhead htail =>
                    obtain ⟨hloc, new, newR, hcap, hcref, hlen, hmem⟩ := hhead
                    have hnew : new = [] := by
                      cases new with
                      | nil => rfl
                      | cons n ns2 =>
                          exfalso
                          have hm := hmem n (List.mem_cons_self n ns2)
                          exact hm.2 (hsub n hm.1)
                    have hcrefnil : lam.captureReferences = [] := by
                      have hlen0 : newR.length = 0 := by
                        rw [hlen, hnew]
                        rfl
                      have hnR : newR = [] := List.length_eq_zero.mp hlen0
                      rw [hcref, hnR]
                      rfl
                    rw [hcrefnil] at h
                    simp only [List.zip_nil_left] at h
                    simp only [materializeCaptures] at h
                    cases h
                    exact ⟨rfl, rfl⟩
  · exact fun ref fa f sc => captureFieldReference_split ref fa f sc

/-- The compiled body of the demonstration lambda: a `FieldReference` to
the formal parameter `x`. -/
def cbodyDemo : CExpr :=
  .mk 0 bigintT (.fieldReference "x") [] false (some ⟨true, ["x"]⟩) false

/-- The compiled demonstration lambda `x -> x`: no captures. -/
def rLamDemo : CExpr :=
  .mk 1 (.functionT [bigintT] bigintT) (.lambdaExpr ["x"] 0) [cbodyDemo]
    false none false

def stLamDemo : CState :=
  { scopes := [emptyScope []],
    nextId := 2,
    resetIds := [],
    evalContaminated := false,
    hasExecCtx := true }

/-- Witness for C5: compiling the lambda `x -> x` (whose body references
only the formal parameter `x`) yields a `LambdaExpr` with zero
captures. -/
theorem C5_lambda_captures_witness :
    (∀ n ∈ inputColumnRefs (.fieldAccess bigintT "x" []), n ∈ ["x"])
    ∧ compileLambdaH (compileE cfgDemo 4) ["x"] [bigintT]
        (.fieldAccess bigintT "x" []) (initialState true)
        = .ok (rLamDemo, stLamDemo)
    ∧ (rLamDemo.kind = .lambdaExpr ["x"] 0 ∧ rLamDemo.lambdaCaptures = []) :=
  ⟨by decide, rfl,
    (C5_lambda_captures cfgDemo 4 ["x"] [bigintT]
      (.fieldAccess bigintT "x" []) (initialState true) rLamDemo stLamDemo
      rfl (by decide) rfl).1⟩

/-- The IR expression `10 AND (20 AND 30)` (over BIGINT constants, whose
values stand in for boolean vectors in the embedding). -/
def andExprDemo : TypedExpr :=
  .call bigintT "and" [.constant bigintT 10,
    .call bigintT "and" [.constant bigintT 20, .constant bigintT 30]]

def a0Demo : CExpr :=
  .mk 0 bigintT (.constantExpr 10) [] false (some ⟨true, []⟩) false

def a1Demo : CExpr :=
  .mk 1 bigintT (.constantExpr 20) [] false (some ⟨true, []⟩) false

def a2Demo : CExpr :=
  .mk 2 bigintT (.constantExpr 30) [] false (some ⟨true, []⟩) false

/-- The compiled spliced inputs of `andExprDemo`. -/
def casDemo : List CExpr := [a0Demo, a1Demo, a2Demo]

def scopeC6Demo : ScopeR :=
  { locals := [],
    capture := [],
    captureReferences := [],
    captureFieldAccesses := [],
    visited := [(.constant bigintT 10, a0Demo), (.constant bigintT 20, a1Demo),
      (.constant bigintT 30, a2Demo)],
    rewrittenExpressions := [] }

/-- The compilation state after sequentially compiling the three spliced
inputs of `andExprDemo` from the initial state. -/
def stC6Demo : CState :=
  { scopes := [scopeC6Demo],
    nextId := 3,
    resetIds := [],
    evalContaminated := false,
    hasExecCtx := true }

/-- Witness for C6: compiling `10 AND (20 AND 30)` under the demo
configuration splices the nested AND into compiled inputs `[10, 20, 30]`
and builds a single AND special form over them. -/
theorem C6_flattening_witness :
    compileSeq (compileE cfgDemo 4)
        [.constant bigintT 10, .constant bigintT 20, .constant bigintT 30]
        (initialState true) = .ok (casDemo, stC6Demo)
    ∧ compileInputsH (compileE cfgDemo 4) cfgDemo andExprDemo
        (initialState true) = .ok (casDemo, stC6Demo)
    ∧ (∃ st4, compileE cfgDemo (4 + 1) andExprDemo (initialState true)
        = .ok ((CExpr.mk stC6Demo.nextId bigintT (.specialForm "and") casDemo
            false none false).withComputedMeta, st4)) :=
  ⟨rfl,
    (C6_flattening cfgDemo 4 bigintT bigintT (.constant bigintT 10)
      (.constant bigintT 20) (.constant bigintT 30) (initialState true)
      casDemo stC6Demo rfl rfl rfl rfl rfl rfl rfl rfl rfl).1,
    (C6_flattening cfgDemo 4 bigintT bigintT (.constant bigintT 10)
      (.constant bigintT 20) (.constant bigintT 30) (initialState true)
      casDemo stC6Demo rfl rfl rfl rfl rfl rfl rfl rfl rfl).2.1⟩

end VeloxSpec
